import Mathlib

/-!
# go-sh: the pipeline builder of `src/sh.go`

A shallow embedding of the invocation-building half of package `sh`
(`Session.Command`, `Session.appendCmd`, `newEnviron`, `value2string`,
`base2string`, `Session.Alias` and the setters), followed by theorems about it.

Conventions of the embedding

* A Go `map` is a list of entries with pairwise distinct keys; the order of the
  list is the order in which one `range` loop enumerates the map.
* A Go `interface{}` argument is a `Value`: the dynamic type (predeclared or
  defined, and its `reflect.Kind`) together with the payload.
* A run-time panic is `none`.
* `os.Environ()` is the explicit parameter `osEnviron`.
* `exec.Command(name, arg...)` is recorded by its `Args` (`name` followed by
  `arg`), `Env` and `Dir`; the `LookPath` resolution of `Path` is left out.
* The injector (`github.com/codegangsta/inject`) is keyed by type. The only
  types ever requested from it are the four parameter types of `appendCmd`,
  so it is a record of those four slots plus the values mapped under any other
  type.
-/

namespace Sh

/-! ## Strings and `strconv` -/

/-- Go `strings.HasPrefix(s, p)`. -/
def HasPrefix (s p : String) : Bool := p.data.isPrefixOf s.data

/-- Go `strconv.FormatBool`. -/
def FormatBool (b : Bool) : String := if b then "true" else "false"

/-- Go `strconv.FormatInt(i, 10)`. -/
def FormatInt (i : Int) : String :=
  if i < 0 then "-" ++ Nat.repr i.natAbs else Nat.repr i.toNat

/-- Go `strconv.FormatUint(n, 10)`. -/
def FormatUint (n : Nat) : String := Nat.repr n

/-- A floating-point value by its exact value: `(-1)^neg * mant * 2^exp`, an
infinity, or a NaN. Converting a `float32` to `float64` is exact, so it is the
identity on this representation. -/
inductive GoFloat where
  | finite (neg : Bool) (mant : Nat) (exp : Int)
  | inf (neg : Bool)
  | nan
  deriving DecidableEq, Repr

/-- Quotient `num / den` rounded to the nearest integer, ties to even. -/
def roundHalfEven (num den : Nat) : Nat :=
  let q := num / den
  let r := num % den
  if den < 2 * r ∨ (2 * r = den ∧ q % 2 = 1) then q + 1 else q

/-- Left-pads `s` with `'0'` up to width `w`. -/
def padZeros (w : Nat) (s : String) : String :=
  String.mk (List.replicate (w - s.length) '0') ++ s

/-- The digits of `mant * 2^exp` in fixed-point notation with `prec` decimals,
correctly rounded (ties to even). -/
def formatFixed (mant : Nat) (exp : Int) (prec : Nat) : String :=
  let scaled : Nat :=
    match exp with
    | Int.ofNat e => mant * 2 ^ e * 10 ^ prec
    | Int.negSucc e => roundHalfEven (mant * 10 ^ prec) (2 ^ (e + 1))
  let ip := Nat.repr (scaled / 10 ^ prec)
  if prec = 0 then ip else ip ++ "." ++ padZeros prec (Nat.repr (scaled % 10 ^ prec))

/-- Go `strconv.FormatFloat(f, 'f', prec, bitSize)`. The value passed is always
representable at `bitSize`, so `bitSize` does not change the text. -/
def FormatFloat (f : GoFloat) (prec : Nat) (_bitSize : Nat) : String :=
  match f with
  | .nan => "NaN"
  | .inf neg => if neg then "-Inf" else "+Inf"
  | .finite neg m e => (if neg then "-" else "") ++ formatFixed m e prec

/-! ## Go maps -/

/-- Go `m[k] = v`: the entry for `k` is replaced or added; keys stay distinct. -/
def mapSet {β : Type} (m : List (String × β)) (k : String) (v : β) : List (String × β) :=
  (k, v) :: m.filter (fun e => e.1 != k)

/-- A `map[string]string`. -/
abbrev EnvMap := List (String × String)

/-! ## Dynamic values -/

/-- The signed integer kinds. -/
inductive IntKind where
  | Int | Int8 | Int16 | Int32 | Int64
  deriving DecidableEq, Repr

/-- The unsigned integer kinds. -/
inductive UintKind where
  | Uint | Uint8 | Uint16 | Uint32 | Uint64 | Uintptr
  deriving DecidableEq, Repr

/-- The kinds of values that carry no payload in this embedding. -/
inductive OtherKind where
  | Chan | Func | Map | Pointer | Struct | UnsafePointer
  deriving DecidableEq, Repr

/-- Go `reflect.Kind` (without `Invalid`). -/
inductive Kind where
  | Bool | Int | Int8 | Int16 | Int32 | Int64
  | Uint | Uint8 | Uint16 | Uint32 | Uint64 | Uintptr
  | Float32 | Float64 | Complex64 | Complex128
  | Array | Chan | Func | Interface | Map | Pointer | Slice | String | Struct | UnsafePointer
  deriving DecidableEq, Repr

/-- A value passed as `interface{}`. In every scalar constructor
`defined = none` is the predeclared type (`bool`, `int`, `string`, ...) and
`defined = some n` is a defined type `n` with that underlying type
(`type Dir string` is `str (some "Dir")`).

* `nil` is the nil interface value.
* `seq` is an array (`isArray = true`) or slice; `elems` are its elements as
  `Index(i).Interface()` returns them (a nil element of a `[]interface{}` is
  `nil`).
* `strMap` is a value of type `map[string]string`; `none` is the nil map.
* `rvalue` is a `reflect.Value`: `inner = none` is the zero (invalid) Value,
  `inner = some v` wraps `v`; `canInterface` is what `CanInterface` reports.
* `other` is any remaining value (struct, pointer, func, channel, other map). -/
inductive Value where
  | nil
  | bool (defined : Option String) (b : Bool)
  | int (k : IntKind) (defined : Option String) (i : Int)
  | uint (k : UintKind) (defined : Option String) (n : Nat)
  | float32 (defined : Option String) (f : GoFloat)
  | float64 (defined : Option String) (f : GoFloat)
  | complex (wide : Bool) (defined : Option String) (re im : GoFloat)
  | str (defined : Option String) (s : String)
  | seq (isArray : Bool) (defined : Option String) (elems : List Value)
  | strMap (m : Option EnvMap)
  | rvalue (canInterface : Bool) (inner : Option Value)
  | other (k : OtherKind) (descr : String)

/-- The directive `Dir(d)` of `type Dir string`. -/
def Dir (d : String) : Value := .str (some "Dir") d

/-- Kind of an `IntKind`. -/
def IntKind.toKind : IntKind → Kind
  | .Int => .Int | .Int8 => .Int8 | .Int16 => .Int16 | .Int32 => .Int32 | .Int64 => .Int64

/-- Kind of a `UintKind`. -/
def UintKind.toKind : UintKind → Kind
  | .Uint => .Uint | .Uint8 => .Uint8 | .Uint16 => .Uint16 | .Uint32 => .Uint32
  | .Uint64 => .Uint64 | .Uintptr => .Uintptr

/-- Kind of an `OtherKind`. -/
def OtherKind.toKind : OtherKind → Kind
  | .Chan => .Chan | .Func => .Func | .Map => .Map | .Pointer => .Pointer
  | .Struct => .Struct | .UnsafePointer => .UnsafePointer

/-- Go `reflect.TypeOf(v).Kind()`; `none` is the panic of calling `Kind` on the
nil `reflect.Type` that `reflect.TypeOf(nil)` returns. -/
def Value.kind : Value → Option Kind
  | .nil => none
  | .bool _ _ => some .Bool
  | .int k _ _ => some k.toKind
  | .uint k _ _ => some k.toKind
  | .float32 _ _ => some .Float32
  | .float64 _ _ => some .Float64
  | .complex wide _ _ _ => some (if wide then .Complex128 else .Complex64)
  | .str _ _ => some .String
  | .seq isArray _ _ => some (if isArray then .Array else .Slice)
  | .strMap _ => some .Map
  | .rvalue _ _ => some .Struct
  | .other k _ => some k.toKind

/-! ## `value2string` and `base2string` -/

/-- The type switch of `base2string` (lines 128-165) on every case but
`reflect.Value`: a case matches the predeclared type only, a defined type
falls to `default` (`success = false`). -/
def base2stringScalar (any : Value) : String × Bool :=
  match any with
  | .str none s => (s, true)
  | .bool none b => (FormatBool b, true)
  | .int _ none i => (FormatInt i, true)
  | .uint .Uintptr none _ => ("", false)
  | .uint _ none n => (FormatUint n, true)
  | .float32 none f => (FormatFloat f 2 32, true)
  | .float64 none f => (FormatFloat f 4 64, true)
  | _ => ("", false)

/-- Go `value2string` (lines 104-123): a switch on the kind. The accessors
`anyv.Bool()`, `anyv.Int()`, `anyv.Uint()`, `anyv.Float()`, `anyv.Complex()`
return `bool`, `int64`, `uint64`, `float64`, `complex128`, and these are what
`base2string` is called with. -/
def value2string (any : Value) : Option (String × Bool) :=
  match any with
  | .nil => none
  | .bool _ b => some (base2stringScalar (.bool none b))
  | .int _ _ i => some (base2stringScalar (.int .Int64 none i))
  | .uint _ _ n => some (base2stringScalar (.uint .Uint64 none n))
  | .float32 _ f => some (base2stringScalar (.float64 none f))
  | .float64 _ f => some (base2stringScalar (.float64 none f))
  | .complex _ _ re im => some (base2stringScalar (.complex true none re im))
  | .str _ s => some (s, true)
  | _ => some ("", false)

/-- Go `base2string` (lines 125-167): the `reflect.Value` case goes through
`value2string`, every other case is `base2stringScalar`. -/
def base2string (any : Value) : Option (String × Bool) :=
  match any with
  | .rvalue canInterface (some inner) =>
      if canInterface then value2string inner else value2string any
  | .rvalue _ none => value2string any
  | _ => some (base2stringScalar any)

/-! ## Sessions -/

/-- An `*exec.Cmd` as built by `appendCmd`: `Args` is the executable name
followed by the arguments. -/
structure Cmd where
  Args : List String
  Env : List String
  Dir : String
  deriving DecidableEq, Repr

/-- Go `exec.Command(name, arg...)`. -/
def execCommand (name : String) (arg : List String) : Cmd :=
  { Args := name :: arg, Env := [], Dir := "" }

/-- A stream endpoint (`io.Reader` or `io.Writer`). -/
inductive Stream where
  | stringReader (content : String)
  | osStdin
  | osStdout
  | osStderr
  | handle (id : Nat)
  deriving DecidableEq, Repr

/-- The injector: the values mapped for `string`, `[]string`, `Dir` and
`map[string]string`, and the values mapped under other types. -/
structure Injector where
  name : Option String := none
  args : Option (List String) := none
  dir : Option String := none
  env : Option (Option EnvMap) := none
  others : List Value := []

/-- Go `inj.Map(v)` at line 193. A value that arrives there has a kind other
than `String`, `Array` and `Slice`, so of the four requested types only
`map[string]string` can be its type. -/
def Injector.Map (inj : Injector) (v : Value) : Injector :=
  match v with
  | .strMap m => { inj with env := some m }
  | _ => { inj with others := v :: inj.others }

/-- Go `Session` (lines 45-57); the field `alias` is named `aliases` here. -/
structure Session where
  inj : Injector
  aliases : List (String × List String)
  cmds : List Cmd
  dir : String
  started : Bool
  Env : EnvMap
  Stdin : Stream
  Stdout : Stream
  Stderr : Stream
  ShowCMD : Bool
  timeout : Int

/-- Go `NewSession` (lines 65-80); `path` is `os.Getenv("PATH")`. -/
def NewSession (path : String) : Session :=
  { inj := {}
    aliases := []
    cmds := []
    dir := ""
    started := false
    Env := mapSet [] "PATH" path
    Stdin := .stringReader ""
    Stdout := .osStdout
    Stderr := .osStderr
    ShowCMD := false
    timeout := 0 }

/-- Go `Session.Alias` (lines 98-102). -/
def Session.Alias (s : Session) (aliasName cmd : String) (args : List String) : Session :=
  { s with aliases := mapSet s.aliases aliasName (cmd :: args) }

/-- Go `Session.SetEnv`. -/
def Session.SetEnv (s : Session) (key value : String) : Session :=
  { s with Env := mapSet s.Env key value }

/-- Go `Session.SetDir`. -/
def Session.SetDir (s : Session) (dir : String) : Session :=
  { s with dir := dir }

/-- Go `Session.SetInput`. -/
def Session.SetInput (s : Session) (input : String) : Session :=
  { s with Stdin := .stringReader input }

/-- Go `Session.SetStdin`. -/
def Session.SetStdin (s : Session) (r : Stream) : Session :=
  { s with Stdin := r }

/-- Go `Session.SetTimeout`. -/
def Session.SetTimeout (s : Session) (d : Int) : Session :=
  { s with timeout := d }

/-- Go `newEnviron` (lines 240-257). The inner loop with `goto CONTINUE` skips
a line as soon as one key `k` has `k+"="` as a prefix of it. -/
def newEnviron (osEnviron : List String) (env : EnvMap) (inherit : Bool) : List String :=
  (if inherit then
      osEnviron.filter (fun line => !(env.any (fun e => HasPrefix line (e.1 ++ "="))))
    else [])
  ++ env.map (fun e => e.1 ++ "=" ++ e.2)

/-- The loop of lines 264-268: every session entry whose key is absent from
`env` is stored into `env`. Storing into the nil map panics. -/
def fillEnv : EnvMap → Option EnvMap → Option (Option EnvMap)
  | [], env => some env
  | _ :: _, none => none
  | (k, v) :: rest, some m =>
      if (m.lookup k).isSome then fillEnv rest (some m)
      else fillEnv rest (some (mapSet m k v))

/-- Go `Session.appendCmd` (lines 259-279). Reading `v[0]` of an empty alias
entry panics. -/
def Session.appendCmd (osEnviron : List String) (s : Session) (cmd : String)
    (args : List String) (cwd : String) (env : Option EnvMap) : Option Session :=
  let cmds0 := if s.started then [] else s.cmds
  match fillEnv s.Env env with
  | none => none
  | some _ =>
    let environ := newEnviron osEnviron s.Env true
    match s.aliases.lookup cmd with
    | some [] => none
    | some (real :: fixed) =>
        let c := execCommand real (fixed ++ args)
        some { s with started := false, cmds := cmds0 ++ [{ c with Env := environ, Dir := cwd }] }
    | none =>
        let c := execCommand cmd args
        some { s with started := false, cmds := cmds0 ++ [{ c with Env := environ, Dir := cwd }] }

/-- The loop of lines 181-186 over the elements of an array or slice:
`base2string(av.Index(i))` and append on success. -/
def flattenSeq (args : List String) : List Value → Option (List String)
  | [] => some args
  | e :: rest =>
      match base2string (.rvalue true (some e)) with
      | none => none
      | some (sval, succ) => flattenSeq (if succ then args ++ [sval] else args) rest

/-- One iteration of the loop of lines 174-196. The type assertion
`v.(string)` panics unless the dynamic type is the predeclared `string`. -/
def resolveValue (args : List String) (inj : Injector) (v : Value) :
    Option (List String × Injector) :=
  match v.kind with
  | none => none
  | some .String =>
      match v with
      | .str none s => some (args ++ [s], inj)
      | _ => none
  | some .Array | some .Slice =>
      match v with
      | .seq _ _ elems => (flattenSeq args elems).map (fun r => (r, inj))
      | _ => none
  | some _ =>
      match base2string v with
      | none => none
      | some (sval, succ) => if succ then some (args ++ [sval], inj) else some (args, inj.Map v)

/-- The loop of lines 174-196. -/
def resolveValues (args : List String) (inj : Injector) : List Value →
    Option (List String × Injector)
  | [] => some (args, inj)
  | v :: rest =>
      match resolveValue args inj v with
      | none => none
      | some (args1, inj1) => resolveValues args1 inj1 rest

/-- Go `inj.Invoke(s.appendCmd)`: the four arguments are fetched by type; when
one is missing `Invoke` returns an error and `appendCmd` is not called. -/
def Session.invokeAppendCmd (osEnviron : List String) (s : Session) : Option Session :=
  match s.inj.name, s.inj.args, s.inj.dir, s.inj.env with
  | some cmd, some args, some cwd, some env => s.appendCmd osEnviron cmd args cwd env
  | _, _, _, _ => some s

/-- Line 173: `s.inj.Map(name).Map(args).Map(s.dir).Map(map[string]string{})`
with `args` the empty slice. -/
def Session.mapInit (s : Session) (name : String) : Injector :=
  { s.inj with name := some name, args := some [], dir := some s.dir, env := some (some []) }

/-- Go `Session.Command` (lines 169-202). -/
def Session.Command (osEnviron : List String) (s : Session) (name : String)
    (a : List Value) : Option Session :=
  match resolveValues [] (s.mapInit name) a with
  | none => none
  | some (args, inj1) =>
      let inj2 : Injector := if args.length ≠ 0 then { inj1 with args := some args } else inj1
      Session.invokeAppendCmd osEnviron { s with inj := inj2 }

/-- Go package-level `Command` (lines 88-91). -/
def Command (osEnviron : List String) (path : String) (name : String) (a : List Value) :
    Option Session :=
  (NewSession path).Command osEnviron name a

/-- One recorded call `Command(name, a...)`. -/
structure Call where
  name : String
  a : List Value

/-- A chain `s.Command(...).Command(...)...` of calls, stopping at a panic. -/
def runCommands (osEnviron : List String) (s : Session) : List Call → Option Session
  | [] => some s
  | c :: rest =>
      match s.Command osEnviron c.name c.a with
      | none => none
      | some s1 => runCommands osEnviron s1 rest


/-! ## Definitions used to state the results -/

/-- Two injectors that agree on the four requested slots. -/
def Injector.sameSlots (i j : Injector) : Prop :=
  i.name = j.name ∧ i.args = j.args ∧ i.dir = j.dir ∧ i.env = j.env

/-- The invocation that `appendCmd` builds, when it does not panic. -/
def invocation (osEnviron : List String) (aliases : List (String × List String))
    (sessEnv : EnvMap) (cmd : String) (args : List String) (cwd : String)
    (env : Option EnvMap) : Option Cmd :=
  match fillEnv sessEnv env with
  | none => none
  | some _ =>
    match aliases.lookup cmd with
    | some [] => none
    | some (real :: fixed) =>
        some { Args := real :: (fixed ++ args), Env := newEnviron osEnviron sessEnv true, Dir := cwd }
    | none => some { Args := cmd :: args, Env := newEnviron osEnviron sessEnv true, Dir := cwd }

/-- The NAME of a `NAME=VALUE` line: the text before its first `=`. -/
def lineName (line : String) : String :=
  String.mk (line.data.takeWhile (fun ch => ch != '='))

/-- The number of digits after the decimal point when `text` is in fixed-point
notation (an optional `-`, one or more digits, a `.`, then digits only);
`none` when `text` is not of that form. -/
def fixedPointDigits (text : String) : Option Nat :=
  let body := match text.data with
    | '-' :: r => r
    | r => r
  let ip := body.takeWhile Char.isDigit
  match body.dropWhile Char.isDigit with
  | '.' :: frac => if ip ≠ [] ∧ frac.all Char.isDigit = true then some frac.length else none
  | _ => none

/-- One operation on a session: a method of `src/sh.go`, or a write of the flag
`started`, which is written outside `src/sh.go` (by the methods that execute the
pipeline); `setStarted` stands for such a write, whatever value it stores. -/
inductive Op where
  | setAlias (aliasName cmd : String) (args : List String)
  | setEnv (key value : String)
  | setDir (dir : String)
  | setInput (input : String)
  | setStdin (r : Stream)
  | setTimeout (d : Int)
  | command (name : String) (a : List Value)
  | setStarted (b : Bool)

/-- The session after one operation; `none` when a `Command` call panics. -/
def Session.applyOp (osEnviron : List String) (s : Session) : Op → Option Session
  | .setAlias aliasName cmd args => some (s.Alias aliasName cmd args)
  | .setEnv key value => some (s.SetEnv key value)
  | .setDir dir => some (s.SetDir dir)
  | .setInput input => some (s.SetInput input)
  | .setStdin r => some (s.SetStdin r)
  | .setTimeout d => some (s.SetTimeout d)
  | .command name a => s.Command osEnviron name a
  | .setStarted b => some { s with started := b }

/-- The session after a sequence of operations. -/
def runOps (osEnviron : List String) (s : Session) : List Op → Option Session
  | [] => some s
  | op :: rest =>
      match s.applyOp osEnviron op with
      | none => none
      | some s1 => runOps osEnviron s1 rest

/-! ## Lemmas on the argument loop -/

theorem Injector.sameSlots_Map {i j : Injector} (h : i.sameSlots j) (v : Value) :
    (i.Map v).sameSlots (j.Map v) := by
  obtain ⟨h1, h2, h3, h4⟩ := h
  cases v <;> simp [Injector.Map, Injector.sameSlots, h1, h2, h3, h4]

theorem Injector.Map_slots (i : Injector) (v : Value) :
    (i.Map v).name = i.name ∧ (i.Map v).args = i.args ∧ (i.Map v).dir = i.dir ∧
      (i.env.isSome = true → (i.Map v).env.isSome = true) := by
  cases v <;> simp [Injector.Map]

theorem resolveValue_slots {args : List String} {inj : Injector} {v : Value}
    {r : List String × Injector} (h : resolveValue args inj v = some r) :
    r.2.name = inj.name ∧ r.2.args = inj.args ∧ r.2.dir = inj.dir ∧
      (inj.env.isSome = true → r.2.env.isSome = true) := by
  unfold resolveValue at h
  split at h
  · simp at h
  · split at h
    · simp at h; subst h; simp
    · simp at h
  · split at h
    · simp at h; obtain ⟨x, _, rfl⟩ := h; simp
    · simp at h
  · split at h
    · simp at h; obtain ⟨x, _, rfl⟩ := h; simp
    · simp at h
  · split at h
    · simp at h
    · split at h
      · simp at h; subst h; simp
      · simp at h; subst h; exact Injector.Map_slots inj v

theorem resolveValues_slots {a : List Value} : ∀ {args : List String} {inj : Injector}
    {r : List String × Injector}, resolveValues args inj a = some r →
    r.2.name = inj.name ∧ r.2.args = inj.args ∧ r.2.dir = inj.dir ∧
      (inj.env.isSome = true → r.2.env.isSome = true) := by
  induction a with
  | nil => intro args inj r h; simp [resolveValues] at h; subst h; simp
  | cons v rest ih =>
    intro args inj r h
    simp only [resolveValues] at h
    split at h
    · simp at h
    · rename_i args1 inj1 h1
      have h2 := resolveValue_slots h1
      have h3 := ih h
      simp only at h2
      refine ⟨h3.1.trans h2.1, h3.2.1.trans h2.2.1, h3.2.2.1.trans h2.2.2.1, fun he => h3.2.2.2 (h2.2.2.2 he)⟩

theorem resolveValue_sameSlots {args : List String} {i j : Injector} {v : Value}
    (hs : i.sameSlots j) {r : List String × Injector} (h : resolveValue args i v = some r) :
    ∃ j1, resolveValue args j v = some (r.1, j1) ∧ r.2.sameSlots j1 := by
  unfold resolveValue at h ⊢
  split at h
  · simp at h
  · split at h
    · simp at h; subst h; exact ⟨j, by simp, hs⟩
    · simp at h
  · split at h
    · simp at h; obtain ⟨x, hx, rfl⟩ := h; exact ⟨j, by simp [hx], hs⟩
    · simp at h
  · split at h
    · simp at h; obtain ⟨x, hx, rfl⟩ := h; exact ⟨j, by simp [hx], hs⟩
    · simp at h
  · rename_i k hk1 hk2 hk3
    split at h
    · simp at h
    · rename_i sval succ hb
      split at h
      · simp at h; subst h
        refine ⟨j, ?_, hs⟩
        split <;> simp_all
      · simp at h; subst h
        refine ⟨j.Map v, ?_, Injector.sameSlots_Map hs v⟩
        split <;> simp_all

theorem resolveValues_sameSlots {a : List Value} : ∀ {args : List String} {i j : Injector},
    i.sameSlots j → ∀ {r : List String × Injector}, resolveValues args i a = some r →
    ∃ j1, resolveValues args j a = some (r.1, j1) ∧ r.2.sameSlots j1 := by
  induction a with
  | nil => intro args i j hs r h; simp [resolveValues] at h; subst h; exact ⟨j, by simp [resolveValues], hs⟩
  | cons v rest ih =>
    intro args i j hs r h
    simp only [resolveValues] at h
    split at h
    · simp at h
    · rename_i args1 inj1 h1
      obtain ⟨j1, hj1, hs1⟩ := resolveValue_sameSlots hs h1
      obtain ⟨j2, hj2, hs2⟩ := ih hs1 h
      exact ⟨j2, by simp [resolveValues, hj1, hj2], hs2⟩

/-! ## Lemmas on `appendCmd` and `Command` -/

theorem appendCmd_eq (osEnviron : List String) (s : Session) (cmd : String)
    (args : List String) (cwd : String) (env : Option EnvMap) :
    s.appendCmd osEnviron cmd args cwd env =
      (invocation osEnviron s.aliases s.Env cmd args cwd env).map
        (fun c => { s with started := false, cmds := (if s.started then [] else s.cmds) ++ [c] }) := by
  unfold Session.appendCmd invocation
  cases fillEnv s.Env env with
  | none => rfl
  | some m =>
    simp only
    cases hl : s.aliases.lookup cmd with
    | none => simp [execCommand]
    | some v => cases v <;> simp [execCommand]

/-- Normal form of a completed `Command` call. -/
theorem Command_some {osEnviron : List String} {s : Session} {name : String} {a : List Value}
    {s1 : Session} (h : s.Command osEnviron name a = some s1) :
    ∃ args inj1 env c, resolveValues [] (s.mapInit name) a = some (args, inj1) ∧
      inj1.env = some env ∧
      invocation osEnviron s.aliases s.Env name args s.dir env = some c ∧
      s1 = { s with
              inj := (if args.length ≠ 0 then { inj1 with args := some args } else inj1)
              started := false
              cmds := (if s.started then [] else s.cmds) ++ [c] } := by
  unfold Session.Command at h
  split at h
  · simp at h
  · rename_i args inj1 hr
    have hsl := resolveValues_slots hr
    simp only [Session.mapInit, Option.isSome_some, forall_const] at hsl
    obtain ⟨hn, ha, hd, he⟩ := hsl
    obtain ⟨env, henv⟩ := Option.isSome_iff_exists.mp he
    have hargs : (if args.length ≠ 0 then { inj1 with args := some args } else inj1).args
        = some args := by
      split
      · rfl
      · rename_i hl
        have : args = [] := by
          cases args with
          | nil => rfl
          | cons x xs => simp at hl
        rw [ha, this]
    have hname : (if args.length ≠ 0 then { inj1 with args := some args } else inj1).name
        = some name := by split <;> simp [hn]
    have hdir : (if args.length ≠ 0 then { inj1 with args := some args } else inj1).dir
        = some s.dir := by split <;> simp [hd]
    have henv2 : (if args.length ≠ 0 then { inj1 with args := some args } else inj1).env
        = some env := by split <;> simp [henv]
    simp only [Session.invokeAppendCmd, hargs, hname, hdir, henv2, appendCmd_eq] at h
    cases hc : invocation osEnviron s.aliases s.Env name args s.dir env with
    | none => simp [hc] at h
    | some c =>
      simp only [hc, Option.map_some', Option.some.injEq] at h
      exact ⟨args, inj1, env, c, hr, henv, hc, h.symm⟩

/-- Converse of `Command_some`. -/
theorem Command_of {osEnviron : List String} {s : Session} {name : String} {a : List Value}
    {args : List String} {inj1 : Injector} {env : Option EnvMap} {c : Cmd}
    (hr : resolveValues [] (s.mapInit name) a = some (args, inj1))
    (henv : inj1.env = some env)
    (hc : invocation osEnviron s.aliases s.Env name args s.dir env = some c) :
    s.Command osEnviron name a = some { s with
              inj := (if args.length ≠ 0 then { inj1 with args := some args } else inj1)
              started := false
              cmds := (if s.started then [] else s.cmds) ++ [c] } := by
  cases hx : s.Command osEnviron name a with
  | none =>
    exfalso
    unfold Session.Command at hx
    rw [hr] at hx
    have hsl := resolveValues_slots hr
    simp only [Session.mapInit, Option.isSome_some, forall_const] at hsl
    obtain ⟨hn, ha, hd, -⟩ := hsl
    have hargs : (if args.length ≠ 0 then { inj1 with args := some args } else inj1).args
        = some args := by
      split
      · rfl
      · rename_i hl
        have : args = [] := by
          cases args with
          | nil => rfl
          | cons x xs => simp at hl
        rw [ha, this]
    have hname : (if args.length ≠ 0 then { inj1 with args := some args } else inj1).name
        = some name := by split <;> simp [hn]
    have hdir : (if args.length ≠ 0 then { inj1 with args := some args } else inj1).dir
        = some s.dir := by split <;> simp [hd]
    have henv2 : (if args.length ≠ 0 then { inj1 with args := some args } else inj1).env
        = some env := by split <;> simp [henv]
    simp only [Session.invokeAppendCmd, hargs, hname, hdir, henv2, appendCmd_eq, hc] at hx
    simp at hx
  | some s1 =>
    obtain ⟨args2, inj2, env2, c2, hr2, henv2, hc2, hs1⟩ := Command_some hx
    rw [hr] at hr2
    simp only [Option.some.injEq, Prod.mk.injEq] at hr2
    obtain ⟨rfl, rfl⟩ := hr2
    rw [henv] at henv2
    simp only [Option.some.injEq] at henv2
    subst henv2
    rw [hc] at hc2
    simp only [Option.some.injEq] at hc2
    subst hc2
    rw [hs1]

/-- A completed `Command` call clears `started`, leaves the configuration
alone and appends one invocation; the same call on any session with the same
alias table, environment and directory appends the same invocation. -/
theorem Command_cmds {osEnviron : List String} {s : Session} {name : String} {a : List Value}
    {s1 : Session} (h : s.Command osEnviron name a = some s1) :
    s1.started = false ∧ s1.aliases = s.aliases ∧ s1.Env = s.Env ∧ s1.dir = s.dir ∧
    ∃ c, s1.cmds = (if s.started then [] else s.cmds) ++ [c] ∧
      ∀ s2 : Session, s2.aliases = s.aliases → s2.Env = s.Env → s2.dir = s.dir →
        ∃ t, s2.Command osEnviron name a = some t ∧
          t.cmds = (if s2.started then [] else s2.cmds) ++ [c] := by
  obtain ⟨args, inj1, env, c, hr, henv, hc, hs1⟩ := Command_some h
  subst hs1
  refine ⟨rfl, rfl, rfl, rfl, c, rfl, ?_⟩
  intro s2 h1 h2 h3
  have hss : (s.mapInit name).sameSlots (s2.mapInit name) := by
    simp [Injector.sameSlots, Session.mapInit, h3]
  obtain ⟨j1, hj1, hs⟩ := resolveValues_sameSlots hss hr
  have hc2 : invocation osEnviron s2.aliases s2.Env name args s2.dir env = some c := by
    rw [h1, h2, h3]; exact hc
  have henv2 : j1.env = some env := by rw [← hs.2.2.2]; exact henv
  exact ⟨_, Command_of hj1 henv2 hc2, rfl⟩

/-- A chain of calls on a session that is not started appends one invocation per
call, each the one its call builds on any session with this configuration. -/
theorem runCommands_cmds {osEnviron : List String} : ∀ (calls : List Call) {s s1 : Session},
    s.started = false → runCommands osEnviron s calls = some s1 →
    ∃ cs : List Cmd, s1.cmds = s.cmds ++ cs ∧ cs.length = calls.length ∧
      ∀ (i : Nat) (hi : i < calls.length) (s2 : Session),
        s2.aliases = s.aliases → s2.Env = s.Env → s2.dir = s.dir →
        ∃ t c, s2.Command osEnviron calls[i].name calls[i].a = some t ∧
          t.cmds = (if s2.started then [] else s2.cmds) ++ [c] ∧ cs[i]? = some c := by
  intro calls
  induction calls with
  | nil =>
    intro s s1 _ h
    simp only [runCommands, Option.some.injEq] at h
    subst h
    exact ⟨[], by simp, rfl, fun i hi => absurd hi (by simp)⟩
  | cons c rest ih =>
    intro s s1 hs h
    simp only [runCommands] at h
    split at h
    · simp at h
    · rename_i sm hm
      obtain ⟨hst, hal, hen, hdi, c0, hc0, hall⟩ := Command_cmds hm
      obtain ⟨cs, hcs, hlen, hrest⟩ := ih hst h
      rw [hs] at hc0
      simp only [Bool.false_eq_true, if_false] at hc0
      refine ⟨c0 :: cs, ?_, by simp [hlen], ?_⟩
      · rw [hcs, hc0]; simp
      · intro i hi s2 h1 h2 h3
        cases i with
        | zero =>
          obtain ⟨t, ht, htc⟩ := hall s2 h1 h2 h3
          exact ⟨t, c0, ht, htc, by simp⟩
        | succ j =>
          have hj : j < rest.length := by simpa using hi
          obtain ⟨t, c1, ht, htc, hget⟩ :=
            hrest j hj s2 (h1.trans hal.symm) (h2.trans hen.symm) (h3.trans hdi.symm)
          exact ⟨t, c1, ht, htc, by simpa using hget⟩

/-! ## Plain string arguments and aliases -/

theorem lookup_mapSet_self {β : Type} (m : List (String × β)) (k : String) (v : β) :
    (mapSet m k v).lookup k = some v := by
  simp [mapSet, List.lookup_cons]

theorem lookup_filter_ne {β : Type} (m : List (String × β)) (k b : String) (hb : b ≠ k) :
    (m.filter (fun e => e.1 != k)).lookup b = m.lookup b := by
  induction m with
  | nil => rfl
  | cons e rest ih =>
    obtain ⟨k1, v1⟩ := e
    by_cases h1 : k1 = k
    · subst h1
      have hne : (b == k1) = false := by simpa using hb
      simp [List.filter_cons, List.lookup_cons, hne, ih]
    · have hk : (k1 != k) = true := by simpa using h1
      simp only [List.filter_cons, hk, if_true, List.lookup_cons, ih]

theorem lookup_mapSet_ne {β : Type} (m : List (String × β)) (k b : String) (v : β)
    (hb : b ≠ k) : (mapSet m k v).lookup b = m.lookup b := by
  have hne : (b == k) = false := by simpa using hb
  simp only [mapSet, List.lookup_cons, hne]
  exact lookup_filter_ne m k b hb

theorem fillEnv_some (sessEnv : EnvMap) : ∀ m : EnvMap, ∃ m1, fillEnv sessEnv (some m) = some m1 := by
  induction sessEnv with
  | nil => intro m; exact ⟨_, rfl⟩
  | cons e rest ih =>
    intro m
    obtain ⟨k, v⟩ := e
    simp only [fillEnv]
    split
    · exact ih m
    · exact ih _

theorem resolveValues_strings (inj : Injector) (xs : List String) : ∀ args : List String,
    resolveValues args inj (xs.map (Value.str none)) = some (args ++ xs, inj) := by
  induction xs with
  | nil => intro args; simp [resolveValues]
  | cons x rest ih =>
    intro args
    simp [resolveValues, resolveValue, Value.kind, ih]

/-- A `Command` call with plain strings as values. -/
theorem Command_strings (osEnviron : List String) (s : Session) (name : String)
    (xs : List String) {c : Cmd}
    (hc : invocation osEnviron s.aliases s.Env name xs s.dir (some []) = some c) :
    ∃ t, s.Command osEnviron name (xs.map (Value.str none)) = some t ∧
      t.cmds = (if s.started then [] else s.cmds) ++ [c] := by
  have hr := resolveValues_strings (s.mapInit name) xs []
  rw [List.nil_append] at hr
  exact ⟨_, Command_of hr (by simp [Session.mapInit]) hc, rfl⟩

theorem invocation_noalias (osEnviron : List String) (aliases : List (String × List String))
    (sessEnv : EnvMap) (cmd : String) (args : List String) (cwd : String) (m : EnvMap)
    (h : aliases.lookup cmd = none) :
    invocation osEnviron aliases sessEnv cmd args cwd (some m) =
      some { Args := cmd :: args, Env := newEnviron osEnviron sessEnv true, Dir := cwd } := by
  obtain ⟨m1, hm⟩ := fillEnv_some sessEnv m
  simp [invocation, hm, h]

theorem invocation_alias (osEnviron : List String) (aliases : List (String × List String))
    (sessEnv : EnvMap) (cmd real : String) (fixed args : List String) (cwd : String) (m : EnvMap)
    (h : aliases.lookup cmd = some (real :: fixed)) :
    invocation osEnviron aliases sessEnv cmd args cwd (some m) =
      some { Args := real :: (fixed ++ args), Env := newEnviron osEnviron sessEnv true, Dir := cwd } := by
  obtain ⟨m1, hm⟩ := fillEnv_some sessEnv m
  simp [invocation, hm, h]

/-! ## Directives, sequences and values of other kinds -/

theorem resolveValues_Dir (d : String) (after : List Value) : ∀ (before : List Value)
    (args : List String) (inj : Injector),
    resolveValues args inj (before ++ Dir d :: after) = none := by
  intro before
  induction before with
  | nil => intro args inj; simp [resolveValues, resolveValue, Value.kind, Dir]
  | cons v rest ih =>
    intro args inj
    simp only [List.cons_append, resolveValues]
    split
    · rfl
    · exact ih _ _

theorem flattenSeq_ints (k : IntKind) (defined : Option String) (xs : List Int) :
    ∀ args : List String,
    flattenSeq args (xs.map (Value.int k defined)) = some (args ++ xs.map FormatInt) := by
  induction xs with
  | nil => intro args; simp [flattenSeq]
  | cons x rest ih =>
    intro args
    simp [flattenSeq, base2string, value2string, base2stringScalar, ih]

/-- A `Command` call with one sequence of signed integers as its value. -/
theorem Command_intSeq (osEnviron : List String) (s : Session) (name : String)
    (isArray : Bool) (defined : Option String) (k : IntKind) (elemType : Option String)
    (xs : List Int) (h : s.aliases.lookup name = none) :
    ∃ t, s.Command osEnviron name [.seq isArray defined (xs.map (Value.int k elemType))] = some t ∧
      t.cmds = (if s.started then [] else s.cmds) ++
        [{ Args := name :: xs.map FormatInt, Env := newEnviron osEnviron s.Env true,
           Dir := s.dir }] := by
  have hr : resolveValues [] (s.mapInit name)
      [.seq isArray defined (xs.map (Value.int k elemType))]
      = some (xs.map FormatInt, s.mapInit name) := by
    cases isArray <;>
      simp [resolveValues, resolveValue, Value.kind, flattenSeq_ints]
  exact ⟨_, Command_of hr (by simp [Session.mapInit])
    (invocation_noalias osEnviron _ _ _ _ _ [] h), rfl⟩

/-! ## The environment merge -/

theorem HasPrefix_key {line k : String} :
    HasPrefix line (k ++ "=") = true ↔ ∃ rest, line.data = k.data ++ '=' :: rest := by
  unfold HasPrefix
  rw [List.isPrefixOf_iff_prefix]
  constructor
  · rintro ⟨t, ht⟩
    refine ⟨t, ?_⟩
    rw [← ht]
    simp
  · rintro ⟨rest, hr⟩
    refine ⟨rest, ?_⟩
    rw [hr]
    simp

theorem takeWhile_key (k rest : List Char) (hk : '=' ∉ k) :
    (k ++ '=' :: rest).takeWhile (fun ch => ch != '=') = k := by
  induction k with
  | nil => simp
  | cons c cs ih =>
    have hc : c ≠ '=' := fun h => hk (by simp [h])
    have hcs : '=' ∉ cs := fun h => hk (by simp [h])
    simp [List.takeWhile_cons, hc, ih hcs]

theorem lineName_of_key {line k : String} {rest : List Char} (hk : '=' ∉ k.data)
    (h : line.data = k.data ++ '=' :: rest) : lineName line = k := by
  apply String.ext
  simp only [lineName, h]
  exact takeWhile_key _ _ hk

theorem split_at_eq (l : List Char) (h : '=' ∈ l) :
    ∃ rest, l = l.takeWhile (fun ch => ch != '=') ++ '=' :: rest := by
  induction l with
  | nil => simp at h
  | cons c cs ih =>
    by_cases hc : c = '='
    · subst hc
      exact ⟨cs, by simp [List.takeWhile_cons]⟩
    · have hcs : '=' ∈ cs := by
        rcases List.mem_cons.mp h with h1 | h1
        · exact absurd h1.symm hc
        · exact h1
      obtain ⟨rest, hr⟩ := ih hcs
      refine ⟨rest, ?_⟩
      simp only [List.takeWhile_cons, bne_iff_ne, ne_eq, hc, not_false_eq_true, decide_True,
        if_true, List.cons_append]
      rw [← hr]

theorem HasPrefix_lineName {line : String} (h : '=' ∈ line.data) :
    HasPrefix line (lineName line ++ "=") = true := by
  rw [HasPrefix_key]
  obtain ⟨rest, hr⟩ := split_at_eq line.data h
  exact ⟨rest, by simpa [lineName] using hr⟩

theorem lookup_of_mem_nodup {β : Type} : ∀ (m : List (String × β)) (k : String) (v : β),
    (m.map Prod.fst).Nodup → (k, v) ∈ m → m.lookup k = some v := by
  intro m
  induction m with
  | nil => intro k v _ h; simp at h
  | cons e rest ih =>
    intro k v hnd hmem
    obtain ⟨k1, v1⟩ := e
    simp only [List.map_cons, List.nodup_cons] at hnd
    rcases List.mem_cons.mp hmem with h1 | h1
    · simp only [Prod.mk.injEq] at h1
      obtain ⟨rfl, rfl⟩ := h1
      simp [List.lookup_cons]
    · have hne : k ≠ k1 := by
        intro hk
        subst hk
        exact hnd.1 (List.mem_map.mpr ⟨(k, v), h1, rfl⟩)
      have hb : (k == k1) = false := by simpa using hne
      simp only [List.lookup_cons, hb]
      exact ih k v hnd.2 h1

theorem mem_of_lookup {β : Type} : ∀ (m : List (String × β)) (k : String) (v : β),
    m.lookup k = some v → (k, v) ∈ m := by
  intro m
  induction m with
  | nil => intro k v h; simp at h
  | cons e rest ih =>
    intro k v h
    obtain ⟨k1, v1⟩ := e
    simp only [List.lookup_cons] at h
    split at h
    · rename_i hb
      have hk : k = k1 := by simpa using hb
      simp only [Option.some.injEq] at h
      subst hk; subst h
      exact List.mem_cons_self _ _
    · exact List.mem_cons_of_mem _ (ih k v h)

/-! ## Fixed-point texts -/

theorem digitChar_isDigit (d : Nat) (h : d < 10) : (Nat.digitChar d).isDigit = true := by
  interval_cases d <;> decide

theorem toDigitsCore_isDigit : ∀ (fuel n : Nat) (acc : List Char),
    (∀ c ∈ acc, c.isDigit = true) → ∀ c ∈ Nat.toDigitsCore 10 fuel n acc, c.isDigit = true := by
  intro fuel
  induction fuel with
  | zero => intro n acc h; simpa [Nat.toDigitsCore] using h
  | succ f ih =>
    intro n acc h
    simp only [Nat.toDigitsCore]
    have hd : (Nat.digitChar (n % 10)).isDigit = true :=
      digitChar_isDigit _ (Nat.mod_lt _ (by decide))
    have hacc : ∀ c ∈ Nat.digitChar (n % 10) :: acc, c.isDigit = true := by
      intro c hc
      rcases List.mem_cons.mp hc with h1 | h1
      · rw [h1]; exact hd
      · exact h c h1
    split
    · exact hacc
    · exact ih _ _ hacc

theorem repr_isDigit (n : Nat) : ∀ c ∈ (Nat.repr n).data, c.isDigit = true := by
  simp only [Nat.repr, Nat.toDigits, List.asString]
  exact toDigitsCore_isDigit _ _ _ (by simp)

theorem toDigitsCore_ne_nil : ∀ (fuel n : Nat) (acc : List Char),
    0 < fuel → Nat.toDigitsCore 10 fuel n acc ≠ [] := by
  intro fuel
  induction fuel with
  | zero => intro n acc h; exact absurd h (by decide)
  | succ f ih =>
    intro n acc _
    simp only [Nat.toDigitsCore]
    split
    · simp
    · cases f with
      | zero => simp [Nat.toDigitsCore]
      | succ g => exact ih _ _ (Nat.succ_pos _)

theorem repr_ne_nil (n : Nat) : (Nat.repr n).data ≠ [] := by
  simp only [Nat.repr, Nat.toDigits, List.asString]
  exact toDigitsCore_ne_nil _ _ _ (Nat.succ_pos _)

theorem takeWhile_digits (ip frac : List Char) (hip : ∀ c ∈ ip, c.isDigit = true) :
    (ip ++ '.' :: frac).takeWhile Char.isDigit = ip := by
  induction ip with
  | nil => simp [List.takeWhile_cons]
  | cons c cs ih =>
    have hc : c.isDigit = true := hip c (List.mem_cons_self _ _)
    simp only [List.cons_append, List.takeWhile_cons, hc, if_true]
    rw [ih (fun x hx => hip x (List.mem_cons_of_mem _ hx))]

theorem dropWhile_digits (ip frac : List Char) (hip : ∀ c ∈ ip, c.isDigit = true) :
    (ip ++ '.' :: frac).dropWhile Char.isDigit = '.' :: frac := by
  induction ip with
  | nil => simp [List.dropWhile_cons]
  | cons c cs ih =>
    have hc : c.isDigit = true := hip c (List.mem_cons_self _ _)
    simp only [List.cons_append, List.dropWhile_cons, hc, if_true]
    rw [ih (fun x hx => hip x (List.mem_cons_of_mem _ hx))]

theorem fixedPointDigits_parts (neg : Bool) (ip frac : List Char) (hne : ip ≠ [])
    (hip : ∀ c ∈ ip, c.isDigit = true) (hfrac : ∀ c ∈ frac, c.isDigit = true) :
    fixedPointDigits (String.mk ((if neg then ['-'] else []) ++ ip ++ '.' :: frac))
      = some frac.length := by
  have hall : frac.all Char.isDigit = true := List.all_eq_true.mpr hfrac
  have key : (match ((if neg then ['-'] else []) ++ ip ++ '.' :: frac : List Char) with
      | '-' :: r => r
      | r => r) = ip ++ '.' :: frac := by
    cases neg with
    | true => simp
    | false =>
      cases ip with
      | nil => exact absurd rfl hne
      | cons c cs =>
        have hc : c.isDigit = true := hip c (List.mem_cons_self _ _)
        have hcne : c ≠ '-' := by
          intro h; rw [h] at hc; exact absurd hc (by decide)
        simp only [if_false, Bool.false_eq_true, List.nil_append, List.cons_append]
        split
        · rename_i r heq
          simp only [List.cons.injEq] at heq
          exact absurd heq.1 hcne
        · rfl
  unfold fixedPointDigits
  simp only [key, takeWhile_digits ip frac hip, dropWhile_digits ip frac hip, hall, hne,
    ne_eq, not_false_eq_true, and_self, if_true]

theorem padZeros_data (w : Nat) (s : String) :
    (padZeros w s).data = List.replicate (w - s.length) '0' ++ s.data := by
  simp [padZeros]

theorem fixedPointDigits_formatFixed (neg : Bool) (m : Nat) (e : Int) (prec : Nat)
    (hp : 0 < prec) :
    fixedPointDigits ((if neg then "-" else "") ++ formatFixed m e prec) = some prec := by
  have hp0 : prec ≠ 0 := Nat.pos_iff_ne_zero.mp hp
  have hform : ∀ scaled : Nat,
      fixedPointDigits ((if neg then "-" else "") ++
        (Nat.repr (scaled / 10 ^ prec) ++ "." ++
          padZeros prec (Nat.repr (scaled % 10 ^ prec)))) = some prec := by
    intro scaled
    have hlen : (Nat.repr (scaled % 10 ^ prec)).length ≤ prec :=
      Nat.repr_length _ _ hp (Nat.mod_lt _ (by positivity))
    have hfl : (padZeros prec (Nat.repr (scaled % 10 ^ prec))).data.length = prec := by
      rw [padZeros_data, List.length_append, List.length_replicate]
      have : (Nat.repr (scaled % 10 ^ prec)).data.length
          = (Nat.repr (scaled % 10 ^ prec)).length := rfl
      omega
    have hfd : ∀ c ∈ (padZeros prec (Nat.repr (scaled % 10 ^ prec))).data,
        c.isDigit = true := by
      intro c hc
      rw [padZeros_data] at hc
      rcases List.mem_append.mp hc with h1 | h1
      · rw [(List.mem_replicate.mp h1).2]; decide
      · exact repr_isDigit _ c h1
    have := fixedPointDigits_parts neg (Nat.repr (scaled / 10 ^ prec)).data
      (padZeros prec (Nat.repr (scaled % 10 ^ prec))).data (repr_ne_nil _)
      (repr_isDigit _) hfd
    rw [hfl] at this
    rw [← this]
    congr 1
    apply String.ext
    cases neg <;> simp
  unfold formatFixed
  simp only [hp0, if_false]
  exact hform _

/-! ## Scalars passed directly -/

/-- A `Command` call whose only value resolves to the one argument `text`. -/
theorem Command_one_arg (osEnviron : List String) (s : Session) (name : String) (v : Value)
    (text : String)
    (hr : resolveValue [] (s.mapInit name) v = some ([text], s.mapInit name))
    (h : s.aliases.lookup name = none) :
    ∃ t, s.Command osEnviron name [v] = some t ∧
      t.cmds = (if s.started then [] else s.cmds) ++
        [{ Args := [name, text], Env := newEnviron osEnviron s.Env true, Dir := s.dir }] := by
  have hrs : resolveValues [] (s.mapInit name) [v] = some ([text], s.mapInit name) := by
    simp [resolveValues, hr]
  exact ⟨_, Command_of hrs (by simp [Session.mapInit])
    (invocation_noalias osEnviron _ _ _ _ _ [] h), rfl⟩

/-! ## More on the environment merge -/

/-- For a line that contains `=` and keys without `=`, the inner loop of
`newEnviron` skips the line exactly when its name is a key. -/
theorem skip_iff_key (env : EnvMap) (hkeys : ∀ e ∈ env, '=' ∉ e.1.data) (line : String)
    (hline : '=' ∈ line.data) :
    env.any (fun e => HasPrefix line (e.1 ++ "=")) = (env.lookup (lineName line)).isSome := by
  rw [Bool.eq_iff_iff, List.any_eq_true, Option.isSome_iff_exists]
  constructor
  · rintro ⟨e, he, hp⟩
    obtain ⟨rest, hr⟩ := HasPrefix_key.mp hp
    have hn : lineName line = e.1 := lineName_of_key (hkeys e he) hr
    cases hl : env.lookup (lineName line) with
    | some v => exact ⟨v, rfl⟩
    | none =>
      exfalso
      rw [hn] at hl
      have := (List.lookup_eq_none_iff.mp hl) e he
      simp at this
  · rintro ⟨v, hv⟩
    exact ⟨_, mem_of_lookup env _ v hv, HasPrefix_lineName hline⟩

theorem lineName_entry (e : String × String) (he : '=' ∉ e.1.data) :
    lineName (e.1 ++ "=" ++ e.2) = e.1 :=
  @lineName_of_key (e.1 ++ "=" ++ e.2) e.1 e.2.data he (by simp)

theorem any_perm {α : Type} (p : α → Bool) {l1 l2 : List α} (h : l1.Perm l2) :
    l1.any p = l2.any p := by
  rw [Bool.eq_iff_iff, List.any_eq_true, List.any_eq_true]
  constructor
  · rintro ⟨x, hx, hp⟩; exact ⟨x, h.mem_iff.mp hx, hp⟩
  · rintro ⟨x, hx, hp⟩; exact ⟨x, h.mem_iff.mpr hx, hp⟩

/-! ## Reachable sessions -/

theorem mapSet_entries_ne_nil (m : List (String × List String)) (k : String) (v : List String)
    (hv : v ≠ []) (hm : ∀ e ∈ m, e.2 ≠ []) : ∀ e ∈ mapSet m k v, e.2 ≠ [] := by
  intro e he
  simp only [mapSet, List.mem_cons, List.mem_filter] at he
  rcases he with h1 | h1
  · rw [h1]; exact hv
  · exact hm e h1.1

theorem applyOp_aliases {osEnviron : List String} {s s1 : Session} {op : Op}
    (h : s.applyOp osEnviron op = some s1) (hm : ∀ e ∈ s.aliases, e.2 ≠ []) :
    ∀ e ∈ s1.aliases, e.2 ≠ [] := by
  cases op with
  | setAlias aliasName cmd args =>
    simp only [Session.applyOp, Option.some.injEq] at h
    subst h
    exact mapSet_entries_ne_nil _ _ _ (by simp) hm
  | command name a =>
    simp only [Session.applyOp] at h
    rw [(Command_cmds h).2.1]
    exact hm
  | setEnv key value => simp only [Session.applyOp, Option.some.injEq] at h; subst h; exact hm
  | setDir dir => simp only [Session.applyOp, Option.some.injEq] at h; subst h; exact hm
  | setInput input => simp only [Session.applyOp, Option.some.injEq] at h; subst h; exact hm
  | setStdin r => simp only [Session.applyOp, Option.some.injEq] at h; subst h; exact hm
  | setTimeout d => simp only [Session.applyOp, Option.some.injEq] at h; subst h; exact hm
  | setStarted b => simp only [Session.applyOp, Option.some.injEq] at h; subst h; exact hm

theorem runOps_aliases {osEnviron : List String} : ∀ (ops : List Op) {s s1 : Session},
    runOps osEnviron s ops = some s1 → (∀ e ∈ s.aliases, e.2 ≠ []) →
    ∀ e ∈ s1.aliases, e.2 ≠ [] := by
  intro ops
  induction ops with
  | nil =>
    intro s s1 h hm
    simp only [runOps, Option.some.injEq] at h
    subst h
    exact hm
  | cons op rest ih =>
    intro s s1 h hm
    simp only [runOps] at h
    split at h
    · simp at h
    · rename_i sm hsm
      exact ih h (applyOp_aliases hsm hm)

/-! ## The claims -/

/-- C1: on a session with an empty pipeline and `started` false, a chain of N
`Command` calls that all complete leaves exactly N invocations, and the i-th
one is the invocation that the i-th call builds on that session. -/
theorem C1_pipeline_holds_calls_in_order (osEnviron : List String) (s : Session)
    (calls : List Call) (s1 : Session) (hc : s.cmds = []) (hs : s.started = false)
    (h : runCommands osEnviron s calls = some s1) :
    s1.cmds.length = calls.length ∧
      ∀ (i : Nat) (hi : i < calls.length),
        ∃ t c, s.Command osEnviron calls[i].name calls[i].a = some t ∧ t.cmds = [c] ∧
          s1.cmds[i]? = some c := by
  obtain ⟨cs, hcs, hlen, hall⟩ := runCommands_cmds calls hs h
  rw [hc, List.nil_append] at hcs
  refine ⟨by rw [hcs, hlen], ?_⟩
  intro i hi
  obtain ⟨t, c, ht, htc, hget⟩ := hall i hi s rfl rfl rfl
  rw [hs, hc] at htc
  exact ⟨t, c, ht, by simpa using htc, by rw [hcs]; exact hget⟩

/-- C1 at `echo hello | wc -c` on a new session. -/
theorem C1_pipeline_holds_calls_in_order_witness :
    (NewSession "/bin").cmds = [] ∧ (NewSession "/bin").started = false ∧
    ∃ s1, runCommands ["HOME=/root"] (NewSession "/bin")
        [⟨"echo", [.str none "hello"]⟩, ⟨"wc", [.str none "-c"]⟩] = some s1 ∧
      s1.cmds = [⟨["echo", "hello"], ["HOME=/root", "PATH=/bin"], ""⟩,
                 ⟨["wc", "-c"], ["HOME=/root", "PATH=/bin"], ""⟩] ∧
      s1.cmds.length = 2 ∧
      ∀ (i : Nat) (hi : i < 2),
        ∃ t c, (NewSession "/bin").Command ["HOME=/root"]
            ([⟨"echo", [.str none "hello"]⟩, ⟨"wc", [.str none "-c"]⟩] : List Call)[i].name
            ([⟨"echo", [.str none "hello"]⟩, ⟨"wc", [.str none "-c"]⟩] : List Call)[i].a = some t ∧
          t.cmds = [c] ∧ s1.cmds[i]? = some c :=
  ⟨rfl, rfl, _, rfl, by decide,
    C1_pipeline_holds_calls_in_order ["HOME=/root"] (NewSession "/bin")
      [⟨"echo", [.str none "hello"]⟩, ⟨"wc", [.str none "-c"]⟩] _ rfl rfl rfl⟩

/-- C2: a completed `Command` call clears `started` and builds one invocation
`c` (the one the call builds on the session with its pipeline emptied); on a
started session the pipeline afterwards is `[c]` whatever it held before, on a
session that is not started it is the earlier pipeline followed by `c`. -/
theorem C2_command_resets_started_pipeline (osEnviron : List String) (s : Session)
    (name : String) (a : List Value) (s1 : Session)
    (h : s.Command osEnviron name a = some s1) :
    s1.started = false ∧
    ∃ c, (∃ t, ({ s with cmds := [], started := false } : Session).Command osEnviron name a
              = some t ∧ t.cmds = [c]) ∧
      (s.started = true → s1.cmds = [c]) ∧
      (s.started = false → s1.cmds = s.cmds ++ [c]) := by
  obtain ⟨hst, -, -, -, c, hc, hall⟩ := Command_cmds h
  refine ⟨hst, c, ?_, ?_, ?_⟩
  · obtain ⟨t, ht, htc⟩ := hall { s with cmds := [], started := false } rfl rfl rfl
    exact ⟨t, ht, by simpa using htc⟩
  · intro hs; rw [hs] at hc; simpa using hc
  · intro hs; rw [hs] at hc; simpa using hc

/-- C2 on a started session that still holds the two stages of its first run. -/
theorem C2_command_resets_started_pipeline_witness :
    ∃ s1, ({ NewSession "/bin" with
              started := true
              cmds := [⟨["echo", "hello"], ["PATH=/bin"], ""⟩, ⟨["wc", "-c"], ["PATH=/bin"], ""⟩] }
            : Session).Command [] "ls" [.str none "-la"] = some s1 ∧
      s1.cmds = [⟨["ls", "-la"], ["PATH=/bin"], ""⟩] ∧
      s1.started = false ∧
      ∃ c, (∃ t, ({ ({ NewSession "/bin" with
              started := true
              cmds := [⟨["echo", "hello"], ["PATH=/bin"], ""⟩, ⟨["wc", "-c"], ["PATH=/bin"], ""⟩] }
            : Session) with cmds := [], started := false } : Session).Command [] "ls"
                [.str none "-la"] = some t ∧ t.cmds = [c]) ∧
        (true = true → s1.cmds = [c]) ∧
        (true = false → s1.cmds = [⟨["echo", "hello"], ["PATH=/bin"], ""⟩,
            ⟨["wc", "-c"], ["PATH=/bin"], ""⟩] ++ [c]) :=
  ⟨_, rfl, by decide,
    C2_command_resets_started_pipeline [] _ "ls" [.str none "-la"] _ rfl⟩

/-- C3, as stated, fails when the real name is itself a key of the alias table:
with `ls` aliased to `ls --color`, after `Alias("ll", "ls", "-la")` the call
`Command("ll", "/tmp")` builds `ls -la /tmp` and the call
`Command("ls", "-la", "/tmp")` builds `ls --color -la /tmp`. -/
theorem C3_alias_transparency_counterexample :
    ((((NewSession "/bin").Alias "ls" "ls" ["--color"]).Alias "ll" "ls" ["-la"]).Command []
        "ll" [.str none "/tmp"]).map (fun t => t.cmds)
      = some [⟨["ls", "-la", "/tmp"], ["PATH=/bin"], ""⟩] ∧
    ((((NewSession "/bin").Alias "ls" "ls" ["--color"]).Alias "ll" "ls" ["-la"]).Command []
        "ls" [.str none "-la", .str none "/tmp"]).map (fun t => t.cmds)
      = some [⟨["ls", "--color", "-la", "/tmp"], ["PATH=/bin"], ""⟩] ∧
    ((((NewSession "/bin").Alias "ls" "ls" ["--color"]).Alias "ll" "ls" ["-la"]).Command []
        "ll" [.str none "/tmp"]).map (fun t => t.cmds)
      ≠ ((((NewSession "/bin").Alias "ls" "ls" ["--color"]).Alias "ll" "ls" ["-la"]).Command []
        "ls" [.str none "-la", .str none "/tmp"]).map (fun t => t.cmds) := by
  decide

/-- C3 (amended): when the real name is not the alias name and is not a key of
the alias table, after `Alias(alias, real, fixed...)` the calls
`Command(alias, args...)` and `Command(real, fixed..., args...)` both complete
and append the same invocation: `real` with arguments `fixed` then `args`, the
session directory and the session environment. -/
theorem C3_alias_transparency_amended (osEnviron : List String) (s : Session)
    (aliasName real : String) (fixed args : List String)
    (h1 : real ≠ aliasName) (h2 : s.aliases.lookup real = none) :
    ∃ t1 t2 c,
      (s.Alias aliasName real fixed).Command osEnviron aliasName (args.map (Value.str none))
        = some t1 ∧
      (s.Alias aliasName real fixed).Command osEnviron real ((fixed ++ args).map (Value.str none))
        = some t2 ∧
      t1.cmds = (if s.started then [] else s.cmds) ++ [c] ∧
      t2.cmds = (if s.started then [] else s.cmds) ++ [c] ∧
      c = { Args := real :: (fixed ++ args), Env := newEnviron osEnviron s.Env true, Dir := s.dir } := by
  have ha : (s.Alias aliasName real fixed).aliases.lookup aliasName = some (real :: fixed) :=
    lookup_mapSet_self _ _ _
  have hb : (s.Alias aliasName real fixed).aliases.lookup real = none := by
    simp only [Session.Alias]
    rw [lookup_mapSet_ne _ _ _ _ h1]; exact h2
  obtain ⟨t1, ht1, hc1⟩ := Command_strings osEnviron (s.Alias aliasName real fixed) aliasName args
    (invocation_alias osEnviron _ _ _ _ _ _ _ [] ha)
  obtain ⟨t2, ht2, hc2⟩ := Command_strings osEnviron (s.Alias aliasName real fixed) real
    (fixed ++ args) (invocation_noalias osEnviron _ _ _ _ _ [] hb)
  exact ⟨t1, t2, _, ht1, ht2, hc1, hc2, rfl⟩

/-- C3 (amended) at the alias `ll` for `ls -la` on a new session. -/
theorem C3_alias_transparency_amended_witness :
    "ls" ≠ "ll" ∧ (NewSession "/bin").aliases.lookup "ls" = none ∧
    ∃ t1 t2 c,
      ((NewSession "/bin").Alias "ll" "ls" ["-la"]).Command [] "ll"
        (["/tmp"].map (Value.str none)) = some t1 ∧
      ((NewSession "/bin").Alias "ll" "ls" ["-la"]).Command [] "ls"
        ((["-la"] ++ ["/tmp"]).map (Value.str none)) = some t2 ∧
      t1.cmds = (if (NewSession "/bin").started then [] else (NewSession "/bin").cmds) ++ [c] ∧
      t2.cmds = (if (NewSession "/bin").started then [] else (NewSession "/bin").cmds) ++ [c] ∧
      c = { Args := "ls" :: (["-la"] ++ ["/tmp"]), Env := newEnviron [] (NewSession "/bin").Env true,
            Dir := (NewSession "/bin").dir } :=
  ⟨by decide, by decide,
    C3_alias_transparency_amended [] (NewSession "/bin") "ll" "ls" ["-la"] ["/tmp"]
      (by decide) (by decide)⟩

/-- C4: the code does not do what the claim says. Every `Command` call whose
values include `Dir(d)`, at any position, panics: the kind of `Dir(d)` is
`String`, and the type assertion `v.(string)` of line 177 fails on a value of
type `Dir`. -/
theorem C4_dir_directive_panics (osEnviron : List String) (s : Session) (name d : String)
    (before after : List Value) :
    s.Command osEnviron name (before ++ Dir d :: after) = none := by
  simp [Session.Command, resolveValues_Dir]

/-- C5: for OS lines that each contain `=` and a session map with distinct
keys that contain no `=`, `newEnviron(env, true)` is the inherited OS lines
followed by the session entries, where: the entry `k=env[k]` is present for
every key `k`; every OS line whose name is not a key is inherited; no
inherited OS line has a name that is a key; and every entry of the result
whose name is a key `k` is the text `k=env[k]` (the session value wins). -/
theorem C5_environment_merge (osEnviron : List String) (env : EnvMap)
    (hos : ∀ line ∈ osEnviron, '=' ∈ line.data)
    (hkeys : ∀ e ∈ env, '=' ∉ e.1.data)
    (hnd : (env.map Prod.fst).Nodup) :
    ∃ inherited : List String,
      newEnviron osEnviron env true = inherited ++ env.map (fun e => e.1 ++ "=" ++ e.2) ∧
      inherited.Sublist osEnviron ∧
      (∀ k v, env.lookup k = some v → (k ++ "=" ++ v) ∈ newEnviron osEnviron env true) ∧
      (∀ line ∈ osEnviron, env.lookup (lineName line) = none → line ∈ inherited) ∧
      (∀ line ∈ inherited, env.lookup (lineName line) = none) ∧
      (∀ line ∈ newEnviron osEnviron env true, ∀ v, env.lookup (lineName line) = some v →
        line = lineName line ++ "=" ++ v) := by
  have hin : ∀ line ∈ osEnviron.filter
        (fun line => !(env.any (fun e => HasPrefix line (e.1 ++ "=")))),
      env.lookup (lineName line) = none := by
    intro line hline
    obtain ⟨hmem, hp⟩ := List.mem_filter.mp hline
    rw [skip_iff_key env hkeys line (hos line hmem)] at hp
    cases hl : env.lookup (lineName line) with
    | none => rfl
    | some v => rw [hl] at hp; simp at hp
  refine ⟨osEnviron.filter (fun line => !(env.any (fun e => HasPrefix line (e.1 ++ "=")))),
    by simp only [newEnviron, if_true], List.filter_sublist _, ?_, ?_, hin, ?_⟩
  · intro k v hl
    have hm := mem_of_lookup env k v hl
    simp only [newEnviron, if_true, List.mem_append, List.mem_map]
    exact Or.inr ⟨(k, v), hm, rfl⟩
  · intro line hline hl
    refine List.mem_filter.mpr ⟨hline, ?_⟩
    rw [skip_iff_key env hkeys line (hos line hline), hl]
    rfl
  · intro line hmem v hl
    simp only [newEnviron, if_true, List.mem_append, List.mem_map] at hmem
    rcases hmem with hf | ⟨e, he, hee⟩
    · have := hin line hf
      rw [hl] at this
      simp at this
    · have hd : line.data = e.1.data ++ '=' :: e.2.data := by rw [← hee]; simp
      have hn : lineName line = e.1 := lineName_of_key (hkeys e he) hd
      have hl2 : env.lookup e.1 = some e.2 := lookup_of_mem_nodup env e.1 e.2 hnd he
      rw [hn] at hl
      rw [hl2] at hl
      simp only [Option.some.injEq] at hl
      rw [hn, ← hl, hee]

/-- C5 at an OS environment of three lines, among them `PATH=/bin`, and a
session map that holds `PATH` with the same value and adds `LANG`: the OS
line `PATH=/bin` is skipped and the session entry `PATH=/bin` is appended. -/
theorem C5_environment_merge_witness :
    (∀ line ∈ ["HOME=/root", "PATH=/bin", "PATHEXT=x"], '=' ∈ line.data) ∧
    (∀ e ∈ ([("PATH", "/bin"), ("LANG", "C")] : EnvMap), '=' ∉ e.1.data) ∧
    (([("PATH", "/bin"), ("LANG", "C")] : EnvMap).map Prod.fst).Nodup ∧
    newEnviron ["HOME=/root", "PATH=/bin", "PATHEXT=x"] [("PATH", "/bin"), ("LANG", "C")] true
      = ["HOME=/root", "PATHEXT=x", "PATH=/bin", "LANG=C"] ∧
    newEnviron ["HOME=/root", "PATH=/usr/bin", "PATHEXT=x"] [("PATH", "/bin"), ("LANG", "C")] true
      = ["HOME=/root", "PATHEXT=x", "PATH=/bin", "LANG=C"] ∧
    ∃ inherited : List String,
      newEnviron ["HOME=/root", "PATH=/bin", "PATHEXT=x"] [("PATH", "/bin"), ("LANG", "C")] true
        = inherited ++
          ([("PATH", "/bin"), ("LANG", "C")] : EnvMap).map (fun e => e.1 ++ "=" ++ e.2) ∧
      inherited.Sublist ["HOME=/root", "PATH=/bin", "PATHEXT=x"] ∧
      (∀ k v, ([("PATH", "/bin"), ("LANG", "C")] : EnvMap).lookup k = some v →
        (k ++ "=" ++ v) ∈ newEnviron ["HOME=/root", "PATH=/bin", "PATHEXT=x"]
          [("PATH", "/bin"), ("LANG", "C")] true) ∧
      (∀ line ∈ ["HOME=/root", "PATH=/bin", "PATHEXT=x"],
        ([("PATH", "/bin"), ("LANG", "C")] : EnvMap).lookup (lineName line) = none →
        line ∈ inherited) ∧
      (∀ line ∈ inherited,
        ([("PATH", "/bin"), ("LANG", "C")] : EnvMap).lookup (lineName line) = none) ∧
      (∀ line ∈ newEnviron ["HOME=/root", "PATH=/bin", "PATHEXT=x"]
          [("PATH", "/bin"), ("LANG", "C")] true, ∀ v,
        ([("PATH", "/bin"), ("LANG", "C")] : EnvMap).lookup (lineName line) = some v →
        line = lineName line ++ "=" ++ v) :=
  ⟨by decide, by decide, by decide, by decide, by decide,
    C5_environment_merge ["HOME=/root", "PATH=/bin", "PATHEXT=x"]
      [("PATH", "/bin"), ("LANG", "C")] (by decide) (by decide) (by decide)⟩

/-- C6: the code does not do what the claim says. With `PATH=/bin` in the
session map, `Command("env", map[string]string{"PATH": "/opt"})` passes the
per-stage map to `appendCmd`, and the invocation carries `PATH=/bin`. -/
theorem C6_per_stage_env_is_ignored :
    ((NewSession "/bin").Command ["HOME=/root"] "env"
        [.strMap (some [("PATH", "/opt")])]).map (fun t => t.cmds)
      = some [⟨["env"], ["HOME=/root", "PATH=/bin"], ""⟩] ∧
    ((NewSession "/bin").Command ["HOME=/root"] "env"
        [.strMap (some [("PATH", "/opt")])]).map (fun t => t.inj.env)
      = some (some (some [("PATH", "/opt")])) ∧
    ((NewSession "/bin").appendCmd ["HOME=/root"] "env" [] ""
        (some [("PATH", "/opt")])).map (fun t => t.cmds)
      = some [⟨["env"], ["HOME=/root", "PATH=/bin"], ""⟩] := by
  decide

/-- C7: the code does not do what the claim says. `Command` panics on a nil
value, on a sequence that holds a nil element, on a value of a defined string
type and on a nil `map[string]string`; it completes with one invocation and no
argument on a complex number, a struct and a map. -/
theorem C7_command_panics_on_some_values :
    ((NewSession "/bin").Command [] "echo" [.nil]).isSome = false ∧
    ((NewSession "/bin").Command [] "echo" [.seq false none [.str none "a", .nil]]).isSome = false ∧
    ((NewSession "/bin").Command [] "echo" [.str (some "MyString") "a"]).isSome = false ∧
    ((NewSession "/bin").Command [] "echo" [.strMap none]).isSome = false ∧
    ((NewSession "/bin").Command [] "echo"
        [.complex true none (.finite false 1 0) (.finite false 2 0), .other .Struct "T",
         .other .Map "map[int]int"]).map (fun t => t.cmds)
      = some [⟨["echo"], ["PATH=/bin"], ""⟩] := by
  decide

/-- C8: with plain strings as values and a name that is not an alias, `Command`
completes and appends the invocation whose executable is the name and whose
arguments are exactly the given strings, in order and unchanged. -/
theorem C8_string_arguments_verbatim (osEnviron : List String) (s : Session) (name : String)
    (xs : List String) (h : s.aliases.lookup name = none) :
    ∃ t, s.Command osEnviron name (xs.map (Value.str none)) = some t ∧
      t.cmds = (if s.started then [] else s.cmds) ++
        [{ Args := name :: xs, Env := newEnviron osEnviron s.Env true, Dir := s.dir }] :=
  Command_strings osEnviron s name xs (invocation_noalias osEnviron _ _ _ _ _ [] h)

/-- C8 at an empty string, a string with spaces and a string with quotes. -/
theorem C8_string_arguments_verbatim_witness :
    (NewSession "/bin").aliases.lookup "echo" = none ∧
    ∃ t, (NewSession "/bin").Command [] "echo"
          (["", "a  b ", "\"q\""].map (Value.str none)) = some t ∧
      t.cmds = (if (NewSession "/bin").started then [] else (NewSession "/bin").cmds) ++
        [{ Args := "echo" :: ["", "a  b ", "\"q\""],
           Env := newEnviron [] (NewSession "/bin").Env true, Dir := (NewSession "/bin").dir }] :=
  ⟨by decide, C8_string_arguments_verbatim [] (NewSession "/bin") "echo" _ (by decide)⟩

/-- C9: a sequence of signed integers passed as one value contributes one
argument per element, in element order, each the `FormatInt` text of the
element: for the package-level `Command(name, xs)`, and for `s.Command(name, xs)`
on every session in which the name is not an alias. -/
theorem C9_int_sequence_flattened (osEnviron : List String) (s : Session) (path name : String)
    (isArray : Bool) (defined : Option String) (k : IntKind) (elemType : Option String)
    (xs : List Int) :
    (∃ t, Command osEnviron path name [.seq isArray defined (xs.map (Value.int k elemType))]
          = some t ∧
      t.cmds = [{ Args := name :: xs.map FormatInt,
                  Env := newEnviron osEnviron (NewSession path).Env true, Dir := "" }]) ∧
    (s.aliases.lookup name = none →
      ∃ t, s.Command osEnviron name [.seq isArray defined (xs.map (Value.int k elemType))]
            = some t ∧
        t.cmds = (if s.started then [] else s.cmds) ++
          [{ Args := name :: xs.map FormatInt, Env := newEnviron osEnviron s.Env true,
             Dir := s.dir }]) := by
  refine ⟨?_, Command_intSeq osEnviron s name isArray defined k elemType xs⟩
  obtain ⟨t, ht, hc⟩ :=
    Command_intSeq osEnviron (NewSession path) name isArray defined k elemType xs rfl
  exact ⟨t, ht, by simpa [NewSession] using hc⟩

/-- C9 at `[]int{1, 2, 3, -45, 0}` and at the empty sequence. -/
theorem C9_int_sequence_flattened_witness :
    (NewSession "/bin").aliases.lookup "echo" = none ∧
    [(1 : Int), 2, 3, -45, 0].map FormatInt = ["1", "2", "3", "-45", "0"] ∧
    (Command [] "/bin" "echo" [.seq false none []]).map (fun t => t.cmds)
      = some [⟨["echo"], ["PATH=/bin"], ""⟩] ∧
    ∃ t, (NewSession "/bin").Command [] "echo"
          [.seq false none ([(1 : Int), 2, 3, -45, 0].map (Value.int .Int none))] = some t ∧
      t.cmds = (if (NewSession "/bin").started then [] else (NewSession "/bin").cmds) ++
        [{ Args := "echo" :: [(1 : Int), 2, 3, -45, 0].map FormatInt,
           Env := newEnviron [] (NewSession "/bin").Env true, Dir := (NewSession "/bin").dir }] :=
  ⟨by decide, by decide, by decide,
    (C9_int_sequence_flattened [] (NewSession "/bin") "/bin" "echo" false none .Int none _).2
      (by decide)⟩

/-- C10: the code does not do what the claim says. The `float32` value 3.5 is
rendered `3.50` when passed directly and `3.5000` as the element of a
sequence; a value of a defined integer type is dropped when passed directly
and rendered as an element. -/
theorem C10_sequence_element_rule_differs :
    ((NewSession "/bin").Command [] "echo"
        [.float32 none (.finite false 7 (-1))]).map (fun t => t.cmds)
      = some [⟨["echo", "3.50"], ["PATH=/bin"], ""⟩] ∧
    ((NewSession "/bin").Command [] "echo"
        [.seq false none [.float32 none (.finite false 7 (-1))]]).map (fun t => t.cmds)
      = some [⟨["echo", "3.5000"], ["PATH=/bin"], ""⟩] ∧
    ((NewSession "/bin").Command [] "echo"
        [.int .Int (some "MyInt") 7]).map (fun t => t.cmds)
      = some [⟨["echo"], ["PATH=/bin"], ""⟩] ∧
    ((NewSession "/bin").Command [] "echo"
        [.seq false none [.int .Int (some "MyInt") 7]]).map (fun t => t.cmds)
      = some [⟨["echo", "7"], ["PATH=/bin"], ""⟩] := by
  decide

/-- C11, as stated, fails on a NaN and on an infinity: `float32(NaN)` becomes
the argument `NaN` and `float64(+Inf)` the argument `+Inf`, neither in
fixed-point notation. -/
theorem C11_float_scalar_counterexample :
    (Command [] "/bin" "echo" [.float32 none .nan]).map (fun t => t.cmds)
      = some [⟨["echo", "NaN"], ["PATH=/bin"], ""⟩] ∧
    fixedPointDigits "NaN" = none ∧
    (Command [] "/bin" "echo" [.float64 none (.inf false)]).map (fun t => t.cmds)
      = some [⟨["echo", "+Inf"], ["PATH=/bin"], ""⟩] ∧
    fixedPointDigits "+Inf" = none := by
  decide

/-- C11 (amended): a finite value of type `float32` or `float64` passed
directly to `Command` (with a name that is not an alias) becomes exactly one
argument, its `FormatFloat` text, and that text is in fixed-point notation
with exactly 2 digits after the decimal point for `float32` and exactly 4 for
`float64`. -/
theorem C11_float_scalar_amended (osEnviron : List String) (s : Session) (name : String)
    (neg : Bool) (m : Nat) (e : Int) (h : s.aliases.lookup name = none) :
    (∃ t, s.Command osEnviron name [.float32 none (.finite neg m e)] = some t ∧
      t.cmds = (if s.started then [] else s.cmds) ++
        [{ Args := [name, FormatFloat (.finite neg m e) 2 32],
           Env := newEnviron osEnviron s.Env true, Dir := s.dir }]) ∧
    fixedPointDigits (FormatFloat (.finite neg m e) 2 32) = some 2 ∧
    (∃ t, s.Command osEnviron name [.float64 none (.finite neg m e)] = some t ∧
      t.cmds = (if s.started then [] else s.cmds) ++
        [{ Args := [name, FormatFloat (.finite neg m e) 4 64],
           Env := newEnviron osEnviron s.Env true, Dir := s.dir }]) ∧
    fixedPointDigits (FormatFloat (.finite neg m e) 4 64) = some 4 := by
  refine ⟨?_, ?_, ?_, ?_⟩
  · exact Command_one_arg osEnviron s name _ _
      (by simp [resolveValue, Value.kind, base2string, base2stringScalar]) h
  · exact fixedPointDigits_formatFixed neg m e 2 (by decide)
  · exact Command_one_arg osEnviron s name _ _
      (by simp [resolveValue, Value.kind, base2string, base2stringScalar]) h
  · exact fixedPointDigits_formatFixed neg m e 4 (by decide)

/-- C11 (amended) at the value 3.5, which is `7 * 2^(-1)`. -/
theorem C11_float_scalar_amended_witness :
    (NewSession "/bin").aliases.lookup "echo" = none ∧
    FormatFloat (.finite false 7 (-1)) 2 32 = "3.50" ∧
    FormatFloat (.finite false 7 (-1)) 4 64 = "3.5000" ∧
    ((∃ t, (NewSession "/bin").Command [] "echo" [.float32 none (.finite false 7 (-1))] = some t ∧
      t.cmds = (if (NewSession "/bin").started then [] else (NewSession "/bin").cmds) ++
        [{ Args := ["echo", FormatFloat (.finite false 7 (-1)) 2 32],
           Env := newEnviron [] (NewSession "/bin").Env true, Dir := (NewSession "/bin").dir }]) ∧
    fixedPointDigits (FormatFloat (.finite false 7 (-1)) 2 32) = some 2 ∧
    (∃ t, (NewSession "/bin").Command [] "echo" [.float64 none (.finite false 7 (-1))] = some t ∧
      t.cmds = (if (NewSession "/bin").started then [] else (NewSession "/bin").cmds) ++
        [{ Args := ["echo", FormatFloat (.finite false 7 (-1)) 4 64],
           Env := newEnviron [] (NewSession "/bin").Env true, Dir := (NewSession "/bin").dir }]) ∧
    fixedPointDigits (FormatFloat (.finite false 7 (-1)) 4 64) = some 4) :=
  ⟨by decide, by decide, by decide,
    C11_float_scalar_amended [] (NewSession "/bin") "echo" false 7 (-1) (by decide)⟩

/-- C12: the code does not do what the claim says. A value of a defined type
(`type MyInt int`, `type MyBool bool`, `type MyUint uint8`) passed directly
contributes no argument, while the same values of the predeclared types
become `7`, `true`, `200`, and a `MyInt` element of a sequence becomes `7`. -/
theorem C12_defined_scalar_types_dropped :
    (Command [] "/bin" "echo"
        [.int .Int (some "MyInt") 7, .bool (some "MyBool") true,
         .uint .Uint8 (some "MyUint") 200]).map (fun t => t.cmds)
      = some [⟨["echo"], ["PATH=/bin"], ""⟩] ∧
    (Command [] "/bin" "echo"
        [.int .Int none 7, .bool none true, .uint .Uint8 none 200,
         .int .Int64 none (-12), .bool none false]).map (fun t => t.cmds)
      = some [⟨["echo", "7", "true", "200", "-12", "false"], ["PATH=/bin"], ""⟩] ∧
    (Command [] "/bin" "echo"
        [.seq false none [.int .Int (some "MyInt") 7]]).map (fun t => t.cmds)
      = some [⟨["echo", "7"], ["PATH=/bin"], ""⟩] := by
  decide

/-- C13: for OS lines that each contain `=` and have pairwise distinct names,
and a session map with distinct keys that contain no `=`, no two entries of
`newEnviron(env, true)` have the same name, and its length is the number of OS
lines whose name is not a key plus the number of keys. -/
theorem C13_environment_merge_distinct_names (osEnviron : List String) (env : EnvMap)
    (hos : ∀ line ∈ osEnviron, '=' ∈ line.data)
    (hosnd : (osEnviron.map lineName).Nodup)
    (hkeys : ∀ e ∈ env, '=' ∉ e.1.data)
    (hnd : (env.map Prod.fst).Nodup) :
    ((newEnviron osEnviron env true).map lineName).Nodup ∧
    (newEnviron osEnviron env true).length =
      (osEnviron.filter (fun line => (env.lookup (lineName line)).isNone)).length
        + env.length := by
  have hfilter : osEnviron.filter
        (fun line => !(env.any (fun e => HasPrefix line (e.1 ++ "="))))
      = osEnviron.filter (fun line => (env.lookup (lineName line)).isNone) := by
    apply List.filter_congr
    intro line hline
    rw [skip_iff_key env hkeys line (hos line hline)]
    cases env.lookup (lineName line) <;> rfl
  have hnames : (env.map (fun e => e.1 ++ "=" ++ e.2)).map lineName = env.map Prod.fst := by
    rw [List.map_map]
    apply List.map_congr_left
    intro e he
    exact lineName_entry e (hkeys e he)
  simp only [newEnviron, if_true, hfilter]
  refine ⟨?_, by simp⟩
  rw [List.map_append, hnames, List.nodup_append]
  refine ⟨hosnd.sublist ((List.filter_sublist _).map _), hnd, ?_⟩
  intro n h1 h2
  obtain ⟨line, hline, rfl⟩ := List.mem_map.mp h1
  obtain ⟨e, he, hek⟩ := List.mem_map.mp h2
  have hnone : (env.lookup (lineName line)).isNone = true := (List.mem_filter.mp hline).2
  have hsome : env.lookup (lineName line) = some e.2 := by
    rw [← hek]
    exact lookup_of_mem_nodup env e.1 e.2 hnd he
  rw [hsome] at hnone
  simp at hnone

/-- C13 at an OS environment of three lines and a session map that overrides
`PATH` and adds `LANG`. -/
theorem C13_environment_merge_distinct_names_witness :
    (∀ line ∈ ["HOME=/root", "PATH=/usr/bin", "PATHEXT=x"], '=' ∈ line.data) ∧
    ((["HOME=/root", "PATH=/usr/bin", "PATHEXT=x"].map lineName).Nodup) ∧
    (∀ e ∈ ([("PATH", "/bin"), ("LANG", "C")] : EnvMap), '=' ∉ e.1.data) ∧
    (([("PATH", "/bin"), ("LANG", "C")] : EnvMap).map Prod.fst).Nodup ∧
    (newEnviron ["HOME=/root", "PATH=/usr/bin", "PATHEXT=x"]
        [("PATH", "/bin"), ("LANG", "C")] true).map lineName
      = ["HOME", "PATHEXT", "PATH", "LANG"] ∧
    (((newEnviron ["HOME=/root", "PATH=/usr/bin", "PATHEXT=x"]
        [("PATH", "/bin"), ("LANG", "C")] true).map lineName).Nodup ∧
     (newEnviron ["HOME=/root", "PATH=/usr/bin", "PATHEXT=x"]
        [("PATH", "/bin"), ("LANG", "C")] true).length =
      (["HOME=/root", "PATH=/usr/bin", "PATHEXT=x"].filter
          (fun line => (([("PATH", "/bin"), ("LANG", "C")] : EnvMap).lookup
            (lineName line)).isNone)).length
        + ([("PATH", "/bin"), ("LANG", "C")] : EnvMap).length) :=
  ⟨by decide, by decide, by decide, by decide, by decide,
    C13_environment_merge_distinct_names ["HOME=/root", "PATH=/usr/bin", "PATHEXT=x"]
      [("PATH", "/bin"), ("LANG", "C")] (by decide) (by decide) (by decide) (by decide)⟩

/-- C14: every completed `Command` call appends an invocation whose directory
is the session's directory at the time of the call; after `SetDir(d)` that is
`d`, on a new session it is the empty string, and with plain strings as
values and a name that is not an alias the call does complete. -/
theorem C14_default_directory (osEnviron : List String) (s : Session) (name : String)
    (a : List Value) (s1 : Session) (h : s.Command osEnviron name a = some s1) :
    (∃ c, s1.cmds = (if s.started then [] else s.cmds) ++ [c] ∧ c.Dir = s.dir) ∧
    (∀ (d : String) (s2 : Session), (s.SetDir d).Command osEnviron name a = some s2 →
      ∃ c, s2.cmds = (if s.started then [] else s.cmds) ++ [c] ∧ c.Dir = d) ∧
    (∀ (path : String) (s3 : Session), (NewSession path).Command osEnviron name a = some s3 →
      ∃ c, s3.cmds = [c] ∧ c.Dir = "") ∧
    (∀ (d : String) (xs : List String), s.aliases.lookup name = none →
      ∃ t c, (s.SetDir d).Command osEnviron name (xs.map (Value.str none)) = some t ∧
        t.cmds = (if s.started then [] else s.cmds) ++ [c] ∧ c.Dir = d) := by
  have key : ∀ (u u1 : Session), u.Command osEnviron name a = some u1 →
      ∃ c, u1.cmds = (if u.started then [] else u.cmds) ++ [c] ∧ c.Dir = u.dir := by
    intro u u1 hu
    obtain ⟨args, inj1, env, c, -, -, hc, hs1⟩ := Command_some hu
    refine ⟨c, by rw [hs1], ?_⟩
    unfold invocation at hc
    split at hc
    · simp at hc
    · split at hc
      · simp at hc
      · simp only [Option.some.injEq] at hc; rw [← hc]
      · simp only [Option.some.injEq] at hc; rw [← hc]
  refine ⟨key s s1 h, ?_, ?_, ?_⟩
  · intro d s2 h2
    exact key (s.SetDir d) s2 h2
  · intro path s3 h3
    obtain ⟨c, hc, hd⟩ := key (NewSession path) s3 h3
    exact ⟨c, by simpa [NewSession] using hc, hd⟩
  · intro d xs hl
    obtain ⟨t, ht, hc⟩ := Command_strings osEnviron (s.SetDir d) name xs
      (invocation_noalias osEnviron _ _ _ _ _ [] hl)
    exact ⟨t, _, ht, hc, rfl⟩

/-- C14 at `NewSession().SetDir("/").Command("pwd")`. -/
theorem C14_default_directory_witness :
    ∃ s1, ((NewSession "/bin").SetDir "/").Command [] "pwd" [] = some s1 ∧
      s1.cmds = [⟨["pwd"], ["PATH=/bin"], "/"⟩] ∧
      (∃ c, s1.cmds = (if ((NewSession "/bin").SetDir "/").started then []
          else ((NewSession "/bin").SetDir "/").cmds) ++ [c] ∧
        c.Dir = ((NewSession "/bin").SetDir "/").dir) :=
  ⟨_, rfl, by decide,
    (C14_default_directory [] ((NewSession "/bin").SetDir "/") "pwd" [] _ rfl).1⟩

/-- C15: the setters and `Alias` leave the pipeline as it is, and a completed
`Command` call on a session that is not started keeps the pipeline as a
front part of the new one, so every invocation already there stays at its
position with its executable, arguments, directory and environment. -/
theorem C15_invocations_not_mutated (osEnviron : List String) (s : Session) :
    (∀ key value, (s.SetEnv key value).cmds = s.cmds) ∧
    (∀ dir, (s.SetDir dir).cmds = s.cmds) ∧
    (∀ input, (s.SetInput input).cmds = s.cmds) ∧
    (∀ r, (s.SetStdin r).cmds = s.cmds) ∧
    (∀ d, (s.SetTimeout d).cmds = s.cmds) ∧
    (∀ aliasName cmd args, (s.Alias aliasName cmd args).cmds = s.cmds) ∧
    (∀ name a s1, s.started = false → s.Command osEnviron name a = some s1 →
      (∃ c, s1.cmds = s.cmds ++ [c]) ∧
      ∀ (i : Nat) (c : Cmd), s.cmds[i]? = some c → s1.cmds[i]? = some c) := by
  refine ⟨fun _ _ => rfl, fun _ => rfl, fun _ => rfl, fun _ => rfl, fun _ => rfl,
    fun _ _ _ => rfl, ?_⟩
  intro name a s1 hs h
  obtain ⟨-, -, -, -, c, hc, -⟩ := Command_cmds h
  rw [hs] at hc
  simp only [Bool.false_eq_true, if_false] at hc
  refine ⟨⟨c, hc⟩, ?_⟩
  intro i c0 hi
  have hlt : i < s.cmds.length := by
    by_contra hge
    rw [List.getElem?_eq_none (Nat.le_of_not_lt hge)] at hi
    simp at hi
  rw [hc, List.getElem?_append_left hlt]
  exact hi

/-- C15 on a session that holds `echo hello`, with a further `wc -c`. -/
theorem C15_invocations_not_mutated_witness :
    ∃ s1, ({ NewSession "/bin" with cmds := [⟨["echo", "hello"], ["PATH=/bin"], ""⟩] }
            : Session).Command [] "wc" [.str none "-c"] = some s1 ∧
      s1.cmds = [⟨["echo", "hello"], ["PATH=/bin"], ""⟩, ⟨["wc", "-c"], ["PATH=/bin"], ""⟩] ∧
      ((∃ c, s1.cmds = [⟨["echo", "hello"], ["PATH=/bin"], ""⟩] ++ [c]) ∧
        ∀ (i : Nat) (c : Cmd), [(⟨["echo", "hello"], ["PATH=/bin"], ""⟩ : Cmd)][i]? = some c →
          s1.cmds[i]? = some c) :=
  ⟨_, rfl, by decide,
    (C15_invocations_not_mutated []
      { NewSession "/bin" with cmds := [⟨["echo", "hello"], ["PATH=/bin"], ""⟩] }).2.2.2.2.2.2
      "wc" [.str none "-c"] _ rfl rfl⟩

/-- C16: when `env1` and `env2` enumerate the same map in two orders, every OS
line is skipped under one order exactly when it is skipped under the other,
the two results of `newEnviron` are the same inherited OS lines (in the order
of the OS environment) followed by the session entries in the respective
order, and so they are permutations of each other with the same members. -/
theorem C16_environment_merge_order_independent (osEnviron : List String) (env1 env2 : EnvMap)
    (h : env1.Perm env2) :
    (∀ line, env1.any (fun e => HasPrefix line (e.1 ++ "="))
        = env2.any (fun e => HasPrefix line (e.1 ++ "="))) ∧
    (∃ inherited : List String, inherited.Sublist osEnviron ∧
      newEnviron osEnviron env1 true = inherited ++ env1.map (fun e => e.1 ++ "=" ++ e.2) ∧
      newEnviron osEnviron env2 true = inherited ++ env2.map (fun e => e.1 ++ "=" ++ e.2)) ∧
    (newEnviron osEnviron env1 true).Perm (newEnviron osEnviron env2 true) ∧
    (∀ line, line ∈ newEnviron osEnviron env1 true ↔ line ∈ newEnviron osEnviron env2 true) := by
  have hany : ∀ line, env1.any (fun e => HasPrefix line (e.1 ++ "="))
      = env2.any (fun e => HasPrefix line (e.1 ++ "=")) := fun line => any_perm _ h
  have hf : osEnviron.filter (fun line => !(env1.any (fun e => HasPrefix line (e.1 ++ "="))))
      = osEnviron.filter (fun line => !(env2.any (fun e => HasPrefix line (e.1 ++ "=")))) := by
    apply List.filter_congr
    intro line _
    rw [hany line]
  have hperm : (newEnviron osEnviron env1 true).Perm (newEnviron osEnviron env2 true) := by
    simp only [newEnviron, if_true, hf]
    exact List.Perm.append_left _ (h.map _)
  refine ⟨hany,
    ⟨osEnviron.filter (fun line => !(env2.any (fun e => HasPrefix line (e.1 ++ "=")))),
      List.filter_sublist _, ?_, ?_⟩, hperm, fun line => hperm.mem_iff⟩
  · simp only [newEnviron, if_true, hf]
  · simp only [newEnviron, if_true]

/-- C16 at a map of two entries enumerated in both orders. -/
theorem C16_environment_merge_order_independent_witness :
    ([("PATH", "/bin"), ("LANG", "C")] : EnvMap).Perm [("LANG", "C"), ("PATH", "/bin")] ∧
    newEnviron ["HOME=/root", "PATH=/usr/bin"] [("PATH", "/bin"), ("LANG", "C")] true
      = ["HOME=/root", "PATH=/bin", "LANG=C"] ∧
    newEnviron ["HOME=/root", "PATH=/usr/bin"] [("LANG", "C"), ("PATH", "/bin")] true
      = ["HOME=/root", "LANG=C", "PATH=/bin"] ∧
    (newEnviron ["HOME=/root", "PATH=/usr/bin"] [("PATH", "/bin"), ("LANG", "C")] true).Perm
      (newEnviron ["HOME=/root", "PATH=/usr/bin"] [("LANG", "C"), ("PATH", "/bin")] true) :=
  ⟨List.Perm.swap _ _ _, by decide, by decide,
    (C16_environment_merge_order_independent ["HOME=/root", "PATH=/usr/bin"]
      [("PATH", "/bin"), ("LANG", "C")] [("LANG", "C"), ("PATH", "/bin")]
      (List.Perm.swap _ _ _)).2.2.1⟩

/-- C17: the code does not do what the claim says. A sequence with a nil
element makes `Command` panic. Without a nil element the elements of
boolean, integer, unsigned integer, float and string kind contribute their
texts in order and complex numbers, structs and nested sequences contribute
nothing. -/
theorem C17_sequence_with_nil_element_panics :
    (Command [] "/bin" "echo" [.seq false none [.str none "a", .nil, .int .Int none 1]]).isSome
      = false ∧
    (Command [] "/bin" "echo"
        [.seq false none
          [.bool none true, .complex true none (.finite false 1 0) (.finite false 2 0),
           .int .Int8 none (-1), .other .Struct "T", .uint .Uint16 none 2,
           .seq false none [.int .Int none 9], .float64 none (.finite false 7 (-1)),
           .str none "s"]]).map (fun t => t.cmds)
      = some [⟨["echo", "true", "-1", "2", "3.5000", "s"], ["PATH=/bin"], ""⟩] := by
  decide

/-- C18: when `name` is a key of the alias table with entry `real` followed by
`fixed`, `Command(name, args...)` completes and appends `real` with the
arguments `fixed` then `args`, whether or not `real` is itself a key; this is
the case after `Alias(name, real, fixed...)` for every `real`, also
`real = name`. A name that is not a key is used unchanged with `args` only. -/
theorem C18_alias_single_step (osEnviron : List String) (s : Session) (name real : String)
    (fixed args : List String) :
    (s.aliases.lookup name = some (real :: fixed) →
      ∃ t, s.Command osEnviron name (args.map (Value.str none)) = some t ∧
        t.cmds = (if s.started then [] else s.cmds) ++
          [{ Args := real :: (fixed ++ args), Env := newEnviron osEnviron s.Env true,
             Dir := s.dir }]) ∧
    (∃ t, (s.Alias name real fixed).Command osEnviron name (args.map (Value.str none)) = some t ∧
        t.cmds = (if s.started then [] else s.cmds) ++
          [{ Args := real :: (fixed ++ args), Env := newEnviron osEnviron s.Env true,
             Dir := s.dir }]) ∧
    (s.aliases.lookup name = none →
      ∃ t, s.Command osEnviron name (args.map (Value.str none)) = some t ∧
        t.cmds = (if s.started then [] else s.cmds) ++
          [{ Args := name :: args, Env := newEnviron osEnviron s.Env true, Dir := s.dir }]) := by
  refine ⟨?_, ?_, ?_⟩
  · intro h
    exact Command_strings osEnviron s name args (invocation_alias osEnviron _ _ _ _ _ _ _ [] h)
  · exact Command_strings osEnviron (s.Alias name real fixed) name args
      (invocation_alias osEnviron _ _ _ _ _ _ _ [] (lookup_mapSet_self _ _ _))
  · intro h
    exact Command_strings osEnviron s name args (invocation_noalias osEnviron _ _ _ _ _ [] h)

/-- C18 with `ls` aliased to `ls -la` (the real name is the alias itself). -/
theorem C18_alias_single_step_witness :
    ((NewSession "/bin").Alias "ls" "ls" ["-la"]).aliases.lookup "ls" = some ("ls" :: ["-la"]) ∧
    (((NewSession "/bin").Alias "ls" "ls" ["-la"]).Command [] "ls"
        [.str none "/tmp"]).map (fun t => t.cmds)
      = some [⟨["ls", "-la", "/tmp"], ["PATH=/bin"], ""⟩] ∧
    ∃ t, ((NewSession "/bin").Alias "ls" "ls" ["-la"]).Command [] "ls"
          (["/tmp"].map (Value.str none)) = some t ∧
      t.cmds = (if ((NewSession "/bin").Alias "ls" "ls" ["-la"]).started then []
          else ((NewSession "/bin").Alias "ls" "ls" ["-la"]).cmds) ++
        [{ Args := "ls" :: (["-la"] ++ ["/tmp"]),
           Env := newEnviron [] ((NewSession "/bin").Alias "ls" "ls" ["-la"]).Env true,
           Dir := ((NewSession "/bin").Alias "ls" "ls" ["-la"]).dir }] :=
  ⟨by decide, by decide,
    (C18_alias_single_step [] ((NewSession "/bin").Alias "ls" "ls" ["-la"]) "ls" "ls" ["-la"]
      ["/tmp"]).1 (by decide)⟩

/-- C19: a completed `Command` call leaves the session's environment map,
directory, alias table, timeout, the three stream endpoints and `ShowCMD` as
they were. -/
theorem C19_command_frame (osEnviron : List String) (s : Session) (name : String)
    (a : List Value) (s1 : Session) (h : s.Command osEnviron name a = some s1) :
    s1.Env = s.Env ∧ s1.dir = s.dir ∧ s1.aliases = s.aliases ∧ s1.timeout = s.timeout ∧
    s1.Stdin = s.Stdin ∧ s1.Stdout = s.Stdout ∧ s1.Stderr = s.Stderr ∧
    s1.ShowCMD = s.ShowCMD := by
  obtain ⟨args, inj1, env, c, -, -, -, hs1⟩ := Command_some h
  subst hs1
  exact ⟨rfl, rfl, rfl, rfl, rfl, rfl, rfl, rfl⟩

/-- C19 on a configured session and a call with values of several kinds. -/
theorem C19_command_frame_witness :
    ∃ s1, (((((NewSession "/bin").SetEnv "LANG" "C").SetDir "/tmp").SetTimeout 50).Alias
            "ll" "ls" ["-la"]).Command ["HOME=/root"] "ll"
            [.str none "x", .int .Int none 3, .other .Struct "T"] = some s1 ∧
      s1.cmds = [⟨["ls", "-la", "x", "3"], ["HOME=/root", "LANG=C", "PATH=/bin"], "/tmp"⟩] ∧
      s1.Env = [("LANG", "C"), ("PATH", "/bin")] ∧ s1.dir = "/tmp" ∧
      s1.aliases = [("ll", ["ls", "-la"])] ∧ s1.timeout = 50 ∧
      s1.Stdin = .stringReader "" ∧ s1.Stdout = .osStdout ∧ s1.Stderr = .osStderr ∧
      s1.ShowCMD = false :=
  ⟨_, rfl, by decide,
    C19_command_frame ["HOME=/root"]
      (((((NewSession "/bin").SetEnv "LANG" "C").SetDir "/tmp").SetTimeout 50).Alias
        "ll" "ls" ["-la"]) "ll"
      [.str none "x", .int .Int none 3, .other .Struct "T"] _ rfl⟩

/-- C20: the alias table is empty after `NewSession`, `Alias` stores the
command followed by the fixed arguments, and in every session reached from
`NewSession` by the operations of the package every alias entry is a
non-empty list, so the lookup in `appendCmd` never yields an empty entry and
`appendCmd` (with a non-nil `env`) does not panic. -/
theorem C20_alias_entries_non_empty (osEnviron : List String) (path : String)
    (ops : List Op) (s : Session) (h : runOps osEnviron (NewSession path) ops = some s) :
    (NewSession path).aliases = [] ∧
    (∀ (aliasName cmd : String) (args : List String),
      (s.Alias aliasName cmd args).aliases.lookup aliasName = some (cmd :: args)) ∧
    (∀ e ∈ s.aliases, ∃ real fixed, e.2 = real :: fixed) ∧
    (∀ cmd : String, s.aliases.lookup cmd ≠ some []) ∧
    (∀ (cmd : String) (args : List String) (cwd : String) (m : EnvMap),
      (s.appendCmd osEnviron cmd args cwd (some m)).isSome = true) := by
  have hinv : ∀ e ∈ s.aliases, e.2 ≠ [] :=
    runOps_aliases ops h (by simp [NewSession])
  have hlook : ∀ cmd : String, s.aliases.lookup cmd ≠ some [] := by
    intro cmd hc
    exact hinv _ (mem_of_lookup _ _ _ hc) rfl
  refine ⟨rfl, fun a c args => lookup_mapSet_self _ _ _, ?_, hlook, ?_⟩
  · intro e he
    cases hv : e.2 with
    | nil => exact absurd hv (hinv e he)
    | cons r f => exact ⟨r, f, rfl⟩
  · intro cmd args cwd m
    rw [appendCmd_eq]
    cases hl : s.aliases.lookup cmd with
    | none => rw [invocation_noalias osEnviron _ _ _ _ _ m hl]; rfl
    | some v =>
      cases v with
      | nil => exact absurd hl (hlook cmd)
      | cons r f => rw [invocation_alias osEnviron _ _ _ _ _ _ _ m hl]; rfl

/-- C20 after two `Alias` calls (one overwriting), a pipeline, a write of `started` and
a further `Command` through the alias. -/
theorem C20_alias_entries_non_empty_witness :
    ∃ s, runOps [] (NewSession "/bin")
        [.setAlias "ll" "ls" [], .setAlias "ll" "ls" ["-la"], .setDir "/tmp",
         .command "ll" [.str none "x"], .setStarted true, .command "ll" []] = some s ∧
      s.aliases = [("ll", ["ls", "-la"])] ∧
      s.cmds = [⟨["ls", "-la"], ["PATH=/bin"], "/tmp"⟩] ∧
      (∀ e ∈ s.aliases, ∃ real fixed, e.2 = real :: fixed) ∧
      (∀ cmd : String, s.aliases.lookup cmd ≠ some []) :=
  ⟨_, rfl, by decide, by decide,
    (C20_alias_entries_non_empty [] "/bin"
      [.setAlias "ll" "ls" [], .setAlias "ll" "ls" ["-la"], .setDir "/tmp",
       .command "ll" [.str none "x"], .setStarted true, .command "ll" []] _ rfl).2.2.1,
    (C20_alias_entries_non_empty [] "/bin"
      [.setAlias "ll" "ls" [], .setAlias "ll" "ls" ["-la"], .setDir "/tmp",
       .command "ll" [.str none "x"], .setStarted true, .command "ll" []] _ rfl).2.2.2.1⟩

end Sh
